import Mathlib

/-!
# plc-mirror: ingestion loop, pacing and read path

A shallow embedding of `pkg/db/models.go`, `pkg/runtime/runtime.go`,
`pkg/runtime/mirror.go` and `pkg/runtime/server.go`.

Conventions of the embedding.

* A `time.Time` is an instant counted in nanoseconds from the zero `Time`;
  a `time.Duration` is an integer number of nanoseconds and `Time.Sub`
  saturates at the bounds of a 64-bit integer, as in Go.
* Functions of Go's standard library and of third-party packages whose
  result depends on text parsing (`time.Parse`, `strings.ToLower`,
  `ssi.MustParseURI`, `crypto.ParsePublicDIDKey`) are fields of `Lib`; the
  general theorems hold for every `Lib`, the worked examples use
  `Example.lib`.
* Package `pkg/plc` is not among the sources; its types and
  `LegacyCreateOp.AsUnsignedOp` follow the specification.
* The relational store is a pair of row lists. Its statements follow their
  conflict clauses; whether a statement is rejected by the storage engine is
  an input (`readFails`, `logInsertFails`, ...).
* The clock, the HTTP exchange and the order of `range` over a Go map are
  inputs as well (`PageEnv`, `ReqEnv`).
* A `rate.Limit` is a rational number; `Limiter.setLimitCalls` counts the calls
  of `SetLimit`.
* Metrics and logging are left out.
-/

namespace PlcMirror

/-! ## `time` -/

/-- Nanoseconds, as `time.Duration`. -/
abbrev Duration := Int

def minDuration : Duration := -(2 ^ 63)

def maxDuration : Duration := 2 ^ 63 - 1

def Second : Duration := 1000000000

def Minute : Duration := 60 * Second

/-- An instant: nanoseconds elapsed since the zero `Time`
(January 1, year 1, 00:00:00 UTC). -/
structure Time where
  ns : Int
deriving DecidableEq, Repr

def Time.zero : Time := ⟨0⟩

def Time.IsZero (t : Time) : Bool := t.ns == 0

def Time.After (t u : Time) : Bool := decide (u.ns < t.ns)

/-- The duration `t - u`, saturated to the range of a `Duration`. -/
def Time.Sub (t u : Time) : Duration :=
  if t.ns - u.ns < minDuration then minDuration
  else if maxDuration < t.ns - u.ns then maxDuration
  else t.ns - u.ns

/-- The call `time.Since(t)` when the clock reads `now`. -/
def Since (now t : Time) : Duration := now.Sub t

/-! ## `strings` -/

def HasPrefix (s pre : String) : Bool := pre.data.isPrefixOf s.data

def TrimPrefix (s pre : String) : String :=
  if HasPrefix s pre then ⟨s.data.drop pre.data.length⟩ else s

/-! ## Library functions taken as inputs -/

/-- A parsed URI (`ssi.URI`), kept as the text it is serialised to. -/
structure URI where
  text : String
deriving DecidableEq, Repr

/-- The dynamic type of the key returned by `crypto.ParsePublicDIDKey`. -/
inductive KeyKind where
  | K256
  | P256
  | other
deriving DecidableEq, Repr

structure Lib where
  /-- The call `time.Parse(time.RFC3339, s)`; `none` is a parse error. -/
  parseTime : String → Option Time
  /-- The function `strings.ToLower`. -/
  ToLower : String → String
  /-- The function `ssi.ParseURI`; `ssi.MustParseURI` panics on `none`. -/
  ParseURI : String → Option URI
  /-- The function `crypto.ParsePublicDIDKey`; `none` is an error. -/
  ParsePublicDIDKey : String → Option KeyKind

/-! ## Package `plc` -/

namespace plc

/-- Modelled from the spec: the type `plc.Service` (package `pkg/plc` is not
among the sources), a service entry `{type, endpoint}`. -/
structure Service where
  type : String
  Endpoint : String
deriving DecidableEq, Repr

/-- Modelled from the spec: the type `plc.Op`, the current operation shape: an
ordered list of aliases, a mapping from verification-method name to public-key
encoding, a mapping from service name to service, and linkage fields. A Go map
is an association list read with `List.lookup`. -/
structure Op where
  AlsoKnownAs : List String
  VerificationMethods : List (String × String)
  Services : List (String × Service)
  RotationKeys : List String
  Prev : Option String
deriving DecidableEq, Repr

/-- The zero value of `plc.Op`. -/
def Op.zero : Op := ⟨[], [], [], [], none⟩

/-- Modelled from the spec: the type `plc.LegacyCreateOp`, the older creation
shape with a single signing key and a single service endpoint. -/
structure LegacyCreateOp where
  SigningKey : String
  RecoveryKey : String
  Handle : String
  Service : String
  Prev : Option String
deriving DecidableEq, Repr

/-- Modelled from the spec: the type `plc.Tombstone`, which carries no service,
key or alias data. -/
structure Tombstone where
  Prev : String
deriving DecidableEq, Repr

/-- Modelled from the spec: the type `plc.Operation`, whose `Value` is one of
the three variants. -/
inductive Operation where
  | Op (v : plc.Op)
  | LegacyCreateOp (v : plc.LegacyCreateOp)
  | Tombstone (v : plc.Tombstone)
deriving DecidableEq, Repr

/-- Modelled from the spec: the type `plc.OperationLogEntry`, one decoded line
of the upstream export. -/
structure OperationLogEntry where
  DID : String
  CID : String
  CreatedAt : String
  Nullified : Bool
  Operation : plc.Operation
deriving DecidableEq, Repr

/-- Modelled from the spec: the method `LegacyCreateOp.AsUnsignedOp`, which
lifts the legacy shape to `Op`: a single alias, the signing key as a one-entry
verification-method mapping and the service as a one-entry service mapping
under the name `atproto_pds`. The name of the verification method and the type
of the service are not fixed by the spec. -/
def LegacyCreateOp.AsUnsignedOp (op : LegacyCreateOp) : Op :=
  { AlsoKnownAs := [op.Handle]
    VerificationMethods := [("atproto", op.SigningKey)]
    Services := [("atproto_pds", ⟨"AtprotoPersonalDataServer", op.Service⟩)]
    RotationKeys := [op.RecoveryKey, op.SigningKey]
    Prev := op.Prev }

end plc

/-! ## Package `db`: `models.go` -/

namespace db

structure PLCLogEntry where
  ID : Nat
  CreatedAt : Time
  DID : String
  CID : String
  PLCTimestamp : String
  Nullified : Bool
  Operation : plc.Operation
deriving DecidableEq, Repr

def PLCLogEntryFromOp (op : plc.OperationLogEntry) : PLCLogEntry :=
  { ID := 0
    CreatedAt := Time.zero
    DID := op.DID
    CID := op.CID
    PLCTimestamp := op.CreatedAt
    Nullified := op.Nullified
    Operation := op.Operation }

structure AccountInfo where
  ID : Nat
  CreatedAt : Time
  UpdatedAt : Time
  DeletedAt : Time
  DID : String
  PLCTimestamp : String
  PDS : String
  Handle : String
  HandleMatch : Bool
  LastChecked : Time
deriving DecidableEq, Repr

/-- The zero value of `AccountInfo`. -/
def AccountInfo.zero : AccountInfo :=
  ⟨0, Time.zero, Time.zero, Time.zero, "", "", "", "", false, Time.zero⟩

/-- The type switch shared by `AccountInfoFromOp` and `DidDoc`: an `Op` as it
is, a `LegacyCreateOp` lifted, and the zero `Op` in the remaining case. -/
def opOf : plc.Operation → plc.Op
  | .Op v => v
  | .LegacyCreateOp v => v.AsUnsignedOp
  | .Tombstone _ => plc.Op.zero

def AccountInfoFromOp (entry : plc.OperationLogEntry) : AccountInfo :=
  let ai : AccountInfo :=
    { AccountInfo.zero with DID := entry.DID, PLCTimestamp := entry.CreatedAt }
  let op := opOf entry.Operation
  let ai : AccountInfo :=
    match op.AlsoKnownAs with
    | a :: _ => { ai with Handle := TrimPrefix a "at://" }
    | [] => ai
  match op.Services.lookup "atproto_pds" with
  | some svc => { ai with PDS := svc.Endpoint }
  | none => ai

structure AccountInfoView where
  DID : String
  PDS : String
  Handle : String
  PLCTime : String
  LastTime : Time
deriving DecidableEq, Repr

def AccountViewFromInfo (info : AccountInfo) : AccountInfoView :=
  { DID := info.DID
    PDS := info.PDS
    Handle := info.Handle
    PLCTime := info.PLCTimestamp
    LastTime := info.UpdatedAt }

end db

open db

/-! ## The store -/

/-- The two tables of the mirror, with the sequences their `ID` columns are
drawn from. -/
structure DB where
  log : List PLCLogEntry
  accounts : List AccountInfo
  logSeq : Nat
  acctSeq : Nat
deriving DecidableEq, Repr

/-- The order of the text column `plc_timestamp`: lexicographic by character. -/
def textLt (a b : String) : Bool := decide (a.data < b.data)

/-- The row with the greatest `plc_timestamp` (compared as text); among equal
timestamps the one stored first. -/
def pickLatest : List PLCLogEntry → Option PLCLogEntry
  | [] => none
  | row :: rest =>
    match pickLatest rest with
    | none => some row
    | some best => if textLt row.PLCTimestamp best.PLCTimestamp then some best else some row

/-- The query `Select("plc_timestamp").Order("plc_timestamp desc").Limit(1)`. -/
def DB.latestTimestamp (d : DB) : Option String :=
  (pickLatest d.log).map (fun row => row.PLCTimestamp)

/-- The query `Where("did = ? AND (NOT nullified)", did)` ordered by
`plc_timestamp desc`, limit 1. -/
def DB.latestEntry (d : DB) (did : String) : Option PLCLogEntry :=
  pickLatest (d.log.filter (fun row => row.DID == did && !row.Nullified))

/-- The query `Where("did = ?", did).Limit(1)` on the account table. -/
def DB.accountByDID (d : DB) (did : String) : Option AccountInfo :=
  d.accounts.find? (fun a => a.DID == did)

/-- The query `Where("handle = ?", handle).Limit(1)` on the account table. -/
def DB.accountByHandle (d : DB) (handle : String) : Option AccountInfo :=
  d.accounts.find? (fun a => a.Handle == handle)

/-- One row of `Create` with `OnConflict{Columns: did, cid; DoNothing}`: a row
whose `(did, cid)` is stored already is dropped, another one is appended with
a fresh `ID` and its creation time. -/
def DB.insertLogEntry (now : Time) (d : DB) (row : PLCLogEntry) : DB :=
  if d.log.any (fun x => x.DID == row.DID && x.CID == row.CID) then
    { d with logSeq := d.logSeq + 1 }
  else
    { d with
      log := d.log ++ [{ row with ID := d.logSeq + 1, CreatedAt := now }]
      logSeq := d.logSeq + 1 }

def DB.createLogEntries (d : DB) (now : Time) (rows : List PLCLogEntry) : DB :=
  rows.foldl (DB.insertLogEntry now) d

/-- One row of `Create` with `OnConflict{Columns: did; DoUpdates:
AssignmentColumns(plc_timestamp, pds, handle)}`: a stored row of the same `did`
has these three columns overwritten, otherwise the row is appended. -/
def DB.upsertAccountInfo (now : Time) (d : DB) (v : AccountInfo) : DB :=
  if d.accounts.any (fun x => x.DID == v.DID) then
    { d with
      accounts := d.accounts.map (fun x =>
        if x.DID = v.DID then
          { x with PLCTimestamp := v.PLCTimestamp, PDS := v.PDS, Handle := v.Handle }
        else x)
      acctSeq := d.acctSeq + 1 }
  else
    { d with
      accounts := d.accounts ++ [{ v with ID := d.acctSeq + 1, CreatedAt := now, UpdatedAt := now }]
      acctSeq := d.acctSeq + 1 }

def DB.upsertAccountInfos (d : DB) (now : Time) (rows : List AccountInfo) : DB :=
  rows.foldl (DB.upsertAccountInfo now) d

/-! ## Package `runtime`: `runtime.go` -/

/-- The limiter `rate.Limiter`: its limit, its burst, and the number of calls
of `SetLimit` made on it. -/
structure Limiter where
  limit : ℚ
  burst : Nat
  setLimitCalls : Nat
deriving DecidableEq

def Limiter.SetLimit (l : Limiter) (newLimit : ℚ) : Limiter :=
  { l with limit := newLimit, setLimitCalls := l.setLimitCalls + 1 }

def defaultRateLimit : ℚ := 450.0 / 300

def caughtUpRateLimit : ℚ := 0.2

def caughtUpThreshold : Duration := 10 * Minute

def maxDelay : Duration := 5 * Minute

/-- The budget of the upstream: 500 requests per five minutes. -/
def upstreamBudget : ℚ := 500 / 300

structure Runtime where
  db : DB
  MaxDelay : Duration
  limiter : Limiter
  lastCompletionTimestamp : Time
  lastRecordTimestamp : Time
deriving DecidableEq

def NewRuntime (d : DB) : Runtime :=
  { db := d
    MaxDelay := maxDelay
    limiter := ⟨defaultRateLimit, 4, 0⟩
    lastCompletionTimestamp := Time.zero
    lastRecordTimestamp := Time.zero }

def Runtime.updateRateLimit (r : Runtime) (now : Time) (lastRecordTimestamp : Time) : Runtime :=
  let desiredRate :=
    if Since now lastRecordTimestamp < caughtUpThreshold then caughtUpRateLimit
    else defaultRateLimit
  { r with
    limiter :=
      if |r.limiter.limit - desiredRate| > 0.0000001 then r.limiter.SetLimit desiredRate
      else r.limiter }

def Runtime.LastCompletion (r : Runtime) : Time := r.lastCompletionTimestamp

/-- The errors of `LastRecordTimestamp`. -/
inductive CursorError where
  | query
  | recordNotFound
  | parsing (ts : String)
deriving DecidableEq, Repr

/-- The method `LastRecordTimestamp`: the runtime it leaves and its result.
`readFails` says that the storage engine rejects the query. -/
def Runtime.LastRecordTimestamp (lib : Lib) (r : Runtime) (readFails : Bool) :
    Runtime × Except CursorError Time :=
  if !r.lastRecordTimestamp.IsZero then (r, .ok r.lastRecordTimestamp)
  else if readFails then (r, .error .query)
  else
    match r.db.latestTimestamp with
    | none => (r, .error .recordNotFound)
    | some ts =>
      match lib.parseTime ts with
      | none => (r, .error (.parsing ts))
      | some dbTimestamp =>
        let r1 :=
          if r.lastRecordTimestamp.IsZero then { r with lastRecordTimestamp := dbTimestamp }
          else r
        if r1.lastRecordTimestamp.After dbTimestamp then (r1, .ok r1.lastRecordTimestamp)
        else (r1, .ok dbTimestamp)

/-! ## Package `runtime`: `mirror.go` -/

/-- One step of the JSON decoder that is not end of stream: an entry, or an
error. -/
inductive Line where
  | entry (e : plc.OperationLogEntry)
  | malformed
deriving DecidableEq, Repr

/-- The HTTP exchange of one iteration. -/
inductive Fetch where
  | requestError
  | sendError
  | response (statusCode : Nat) (body : List Line)
deriving DecidableEq, Repr

/-- What one iteration of the pagination loop reads from outside the
program. -/
structure PageEnv where
  fetch : Fetch
  logInsertFails : Bool
  acctUpsertFails : Bool
  /-- The order in which `range mapInfos` yields the values of the map. -/
  rangeOrder : List AccountInfo → List AccountInfo
  logWriteTime : Time
  acctWriteTime : Time
  /-- The clock when `updateRateLimit` runs. -/
  now : Time

/-- The variables of the decode loop. -/
structure DecodeState where
  newEntries : List PLCLogEntry
  mapInfos : List (String × AccountInfo)
  lastTimestamp : Time
  cursor : String
deriving DecidableEq, Repr

/-- The assignment `m[k] = v` on a Go map. -/
def mapSet {V : Type} (m : List (String × V)) (k : String) (v : V) : List (String × V) :=
  if m.any (fun p => p.1 == k) then m.map (fun p => if p.1 = k then (k, v) else p)
  else m ++ [(k, v)]

/-- The body of the decode loop for one decoded entry. -/
def decodeEntry (lib : Lib) (ds : DecodeState) (entry : plc.OperationLogEntry) : DecodeState :=
  let row := PLCLogEntryFromOp entry
  let info := AccountInfoFromOp entry
  let ds : DecodeState :=
    match lib.parseTime row.PLCTimestamp with
    | some t => { ds with lastTimestamp := t }
    | none => ds
  let ds : DecodeState := { ds with cursor := entry.CreatedAt }
  if info.PDS = "https://uwu" then ds
  else
    { ds with
      mapInfos := mapSet ds.mapInfos info.DID info
      newEntries := ds.newEntries ++ [row] }

/-- The decode loop: `none` when a line fails to parse. -/
def decodeLoop (lib : Lib) : DecodeState → List Line → Option DecodeState
  | ds, [] => some ds
  | _, .malformed :: _ => none
  | ds, .entry e :: rest => decodeLoop lib (decodeEntry lib ds e) rest

/-- The state of one page before its first line is decoded. -/
def DecodeState.init (cursor : String) : DecodeState :=
  { newEntries := [], mapInfos := [], lastTimestamp := Time.zero, cursor := cursor }

/-- How one iteration of the pagination loop ends. -/
inductive PageResult where
  | err (msg : String)
  | caughtUp
  | next (cursor : String)
deriving DecidableEq, Repr

/-- One iteration of the pagination loop of `backfillMirror`. -/
def Runtime.backfillPage (lib : Lib) (r : Runtime) (cursor : String) (env : PageEnv) :
    Runtime × PageResult :=
  match env.fetch with
  | .requestError => (r, .err "constructing request")
  | .sendError => (r, .err "sending request")
  | .response statusCode body =>
    if statusCode ≠ 200 then (r, .err "unexpected status code")
    else
      match decodeLoop lib (DecodeState.init cursor) body with
      | none => (r, .err "parsing log entry")
      | some ds =>
        if ds.newEntries.length = 0 ∨ ds.cursor = cursor then (r, .caughtUp)
        else if env.logInsertFails then (r, .err "inserting log entry into database")
        else
          let r1 := { r with db := r.db.createLogEntries env.logWriteTime ds.newEntries }
          if env.acctUpsertFails then (r1, .err "inserting acct info into database")
          else
            let newInfos := env.rangeOrder (ds.mapInfos.map Prod.snd)
            let r2 := { r1 with db := r1.db.upsertAccountInfos env.acctWriteTime newInfos }
            if !ds.lastTimestamp.IsZero then
              (Runtime.updateRateLimit { r2 with lastRecordTimestamp := ds.lastTimestamp }
                env.now ds.lastTimestamp, .next ds.cursor)
            else (r2, .next ds.cursor)

/-- How `backfillMirror` stands after the exchanges it was given: returned an
error, returned `nil`, or waiting for the next exchange with this cursor. -/
inductive LoopResult where
  | err (msg : String)
  | done
  | pending (cursor : String)
deriving DecidableEq, Repr

/-- The pagination loop of `backfillMirror` over the exchanges `envs`. -/
def Runtime.backfillLoop (lib : Lib) : Runtime → String → List PageEnv → Runtime × LoopResult
  | r, cursor, [] => (r, .pending cursor)
  | r, cursor, env :: envs =>
    match r.backfillPage lib cursor env with
    | (r1, .err msg) => (r1, .err msg)
    | (r1, .caughtUp) => (r1, .done)
    | (r1, .next c) => Runtime.backfillLoop lib r1 c envs

/-- What `backfillMirror` reads from outside before its loop. -/
structure StartEnv where
  readFails : Bool
  now : Time

def Runtime.backfillMirror (lib : Lib) (r : Runtime) (start : StartEnv) (envs : List PageEnv) :
    Runtime × LoopResult :=
  if start.readFails then (r, .err "failed to get the cursor")
  else
    let cursor := (r.db.latestTimestamp).getD ""
    let r1 :=
      match lib.parseTime cursor with
      | none => r
      | some cursorTimestamp => r.updateRateLimit start.now cursorTimestamp
    Runtime.backfillLoop lib r1 cursor envs

/-- One turn of the loop of `StartMirror`: a pass that returned `nil` records
its completion time. -/
def Runtime.mirrorCycle (lib : Lib) (r : Runtime) (start : StartEnv) (envs : List PageEnv)
    (now : Time) : Runtime :=
  match r.backfillMirror lib start envs with
  | (r1, .done) => { r1 with lastCompletionTimestamp := now }
  | (r1, _) => r1

/-! ## Package `runtime`: `server.go` -/

inductive Response (α : Type) where
  | InternalServerError (msg : String)
  | ServiceUnavailable (behind : Duration)
  | NotFound (msg : String)
  | JSON (body : α)
  | String (body : String)
  /-- The handler panicked (`ssi.MustParseURI` on a text that is no URI). -/
  | panicked
deriving DecidableEq, Repr

/-- What a request handler reads from outside the program. -/
structure ReqEnv where
  /-- The clock at `time.Since(ts)`. -/
  now : Time
  /-- The clock at `time.Since(r.LastCompletion())`. -/
  nowCompletion : Time
  /-- The storage engine rejects the query of `LastRecordTimestamp`. -/
  cursorReadFails : Bool
  /-- The storage engine rejects the lookup of the handler. -/
  lookupFails : Bool
deriving DecidableEq, Repr

def CursorError.text : CursorError → String
  | .query => "query failed"
  | .recordNotFound => "record not found"
  | .parsing ts => "parsing timestamp " ++ ts

def Runtime.Ready (lib : Lib) (r : Runtime) (env : ReqEnv) : Runtime × Response Unit :=
  match r.LastRecordTimestamp lib env.cursorReadFails with
  | (r1, .error e) => (r1, .InternalServerError e.text)
  | (r1, .ok ts) =>
    let delay := Since env.now ts
    if delay > r1.MaxDelay then (r1, .ServiceUnavailable delay)
    else (r1, .String "OK")

def Runtime.Info (lib : Lib) (r : Runtime) (env : ReqEnv) (path : String) :
    Response AccountInfoView :=
  let reqAcct := lib.ToLower (TrimPrefix path "/info/")
  if HasPrefix reqAcct "did:" then
    if env.lookupFails then .JSON (AccountViewFromInfo AccountInfo.zero)
    else
      match r.db.accountByDID reqAcct with
      | none => .NotFound "unknown DID"
      | some entry => .JSON (AccountViewFromInfo entry)
  else
    if env.lookupFails then .JSON (AccountViewFromInfo AccountInfo.zero)
    else
      match r.db.accountByHandle reqAcct with
      | none => .NotFound "unknown handle"
      | some entry => .JSON (AccountViewFromInfo entry)

structure DID where
  Method : String
  ID : String
deriving DecidableEq, Repr

structure DIDURL where
  DID : DID
  Fragment : String
deriving DecidableEq, Repr

structure DocService where
  ID : URI
  type : String
  ServiceEndpoint : String
deriving DecidableEq, Repr

structure VerificationMethod where
  ID : DIDURL
  type : String
  Controller : DID
  PublicKeyMultibase : String
deriving DecidableEq, Repr

structure Document where
  Context : List String
  ID : DID
  AlsoKnownAs : List URI
  Service : List DocService
  VerificationMethod : List VerificationMethod
deriving DecidableEq, Repr

def mapSlice {A B : Type} (s : List A) (fn : A → B) : List B :=
  s.foldl (fun r v => r ++ [fn v]) []

/-- The values of a list of results when none is missing. -/
def allSome {α : Type} : List (Option α) → Option (List α)
  | [] => some []
  | none :: _ => none
  | some a :: rest => (allSome rest).map (fun l => a :: l)

/-- The method `VerificationMethods.Add`: a method whose `ID` is listed already
is not added. -/
def addVerificationMethod (vms : List VerificationMethod) (v : VerificationMethod) :
    List VerificationMethod :=
  if vms.any (fun x => x.ID == v.ID) then vms else vms ++ [v]

/-- The body of the loop over `op.VerificationMethods`. -/
def addKey (lib : Lib) (didValue : DID) (doc : Document) (kv : String × String) : Document :=
  let idValue : DIDURL := { DID := didValue, Fragment := kv.1 }
  let doc : Document :=
    { doc with
      VerificationMethod := addVerificationMethod doc.VerificationMethod
        { ID := idValue
          type := "Multikey"
          Controller := didValue
          PublicKeyMultibase := TrimPrefix kv.2 "did:key:" } }
  match lib.ParsePublicDIDKey kv.2 with
  | none => doc
  | some key =>
    let context :=
      match key with
      | .K256 => "https://w3id.org/security/suites/secp256k1-2019/v1"
      | .P256 => "https://w3id.org/security/suites/ecdsa-2019/v1"
      | .other => ""
    if context ≠ "" ∧ ¬ doc.Context.contains context then
      { doc with Context := doc.Context ++ [context] }
    else doc

/-- The construction of the document from a log entry and its operation;
`none` when `ssi.MustParseURI` panics. The two maps are ranged over in the
order of their association lists. -/
def renderDocument (lib : Lib) (entry : PLCLogEntry) (op : plc.Op) : Option Document :=
  let didValue : DID := { Method := "plc", ID := TrimPrefix entry.DID "did:plc:" }
  match allSome (mapSlice op.AlsoKnownAs lib.ParseURI) with
  | none => none
  | some alsoKnownAs =>
    let doc : Document :=
      { Context := ["https://www.w3.org/ns/did/v1", "https://w3id.org/security/multikey/v1"]
        ID := didValue
        AlsoKnownAs := alsoKnownAs
        Service := []
        VerificationMethod := [] }
    match allSome (op.Services.map (fun p => (lib.ParseURI ("#" ++ p.1)).map (fun u =>
        ({ ID := u, type := p.2.type, ServiceEndpoint := p.2.Endpoint } : DocService)))) with
    | none => none
    | some services =>
      let doc : Document := { doc with Service := doc.Service ++ services }
      some (op.VerificationMethods.foldl (addKey lib didValue) doc)

/-- The part of `DidDoc` after the staleness check: the lookup of the latest
entry and the rendering of the document. -/
def Runtime.resolveDid (lib : Lib) (r : Runtime) (env : ReqEnv) (path : String) :
    Response Document :=
  let requestedDid := lib.ToLower (TrimPrefix path "/")
  if env.lookupFails then .InternalServerError "failed to get the last log entry"
  else
    match r.db.latestEntry requestedDid with
    | none => .NotFound "unknown DID"
    | some entry =>
      match entry.Operation with
      | .Tombstone _ => .NotFound "DID deleted"
      | operation =>
        match renderDocument lib entry (opOf operation) with
        | none => .panicked
        | some doc => .JSON doc

def Runtime.DidDoc (lib : Lib) (r : Runtime) (env : ReqEnv) (path : String) :
    Runtime × Response Document :=
  match r.LastRecordTimestamp lib env.cursorReadFails with
  | (r1, .error e) => (r1, .InternalServerError e.text)
  | (r1, .ok ts) =>
    let delay := Since env.now ts
    if delay > r1.MaxDelay then
      let completionDelay := Since env.nowCompletion r1.LastCompletion
      if completionDelay > r1.MaxDelay then (r1, .ServiceUnavailable delay)
      else (r1, r1.resolveDid lib env path)
    else (r1, r1.resolveDid lib env path)

/-! ## Predicates of the statements -/

def DB.empty : DB := ⟨[], [], 0, 0⟩

/-- A row with the `(did, cid)` of `row` is stored in `log`. -/
def Stored (log : List PLCLogEntry) (row : PLCLogEntry) : Prop :=
  ∃ x ∈ log, x.DID = row.DID ∧ x.CID = row.CID

/-- No two rows of `log` share their `(did, cid)`. -/
def UniqueKeys (log : List PLCLogEntry) : Prop :=
  log.Pairwise (fun a b => ¬ (a.DID = b.DID ∧ a.CID = b.CID))

/-- The account table holds a row for the `did` of `v`, and every such row
carries the three projected columns of `v`. -/
def Settled (accounts : List AccountInfo) (v : AccountInfo) : Prop :=
  (∃ x ∈ accounts, x.DID = v.DID) ∧
  ∀ x ∈ accounts, x.DID = v.DID →
    x.PLCTimestamp = v.PLCTimestamp ∧ x.PDS = v.PDS ∧ x.Handle = v.Handle

/-- The entries of a page body. -/
def entriesOf : List Line → List plc.OperationLogEntry
  | [] => []
  | .entry e :: rest => e :: entriesOf rest
  | .malformed :: rest => entriesOf rest

/-- The entry is skipped as a bogus record. -/
def isBogus (e : plc.OperationLogEntry) : Bool := (AccountInfoFromOp e).PDS == "https://uwu"

/-- The map of account projections is keyed by the `did` of its values, each
key once. -/
def KeyedByDID (m : List (String × AccountInfo)) : Prop :=
  (m.map Prod.fst).Nodup ∧ ∀ p ∈ m, p.2.DID = p.1

/-- The staleness check of `DidDoc` lets the request through: the newest
record timestamp is known, and it or the last completed pass is at most
`MaxDelay` old. -/
def Fresh (lib : Lib) (r : Runtime) (env : ReqEnv) : Prop :=
  ∃ ts, (r.LastRecordTimestamp lib env.cursorReadFails).2 = .ok ts
    ∧ ¬ (Since env.now ts > r.MaxDelay
        ∧ Since env.nowCompletion r.LastCompletion > r.MaxDelay)

/-- The identity a request path of `DidDoc` asks for. -/
def requestedDid (lib : Lib) (path : String) : String := lib.ToLower (TrimPrefix path "/")

/-- The operation is a `plc.Tombstone`. -/
def isTombstone : plc.Operation → Bool
  | .Tombstone _ => true
  | _ => false

/-- The entries of the page of an exchange. -/
def pageEntries (env : PageEnv) : List plc.OperationLogEntry :=
  match env.fetch with
  | .response _ body => entriesOf body
  | _ => []

/-- The instant of a timestamp in nanoseconds; `0` for a text that does not
parse. -/
def timeNs (lib : Lib) (s : String) : Int :=
  match lib.parseTime s with
  | some t => t.ns
  | none => 0

/-- The cursor and the timestamp of every stored log row are at most `bound`. -/
def BoundedBy (lib : Lib) (r : Runtime) (bound : Int) : Prop :=
  r.lastRecordTimestamp.ns ≤ bound
  ∧ ∀ row ∈ r.db.log, ∃ t, lib.parseTime row.PLCTimestamp = some t ∧ t.ns ≤ bound

/-! ## A concrete `Lib` for worked examples -/

namespace Example

def digits : List Char → Option Nat
  | [] => some 0
  | cs => cs.foldl (fun acc c =>
      match acc with
      | none => none
      | some n => if c.isDigit then some (n * 10 + (c.toNat - 48)) else none) (some 0)

def isLeap (y : Nat) : Bool := y % 4 == 0 && (y % 100 != 0 || y % 400 == 0)

def daysIn (m y : Nat) : Nat :=
  if m = 2 then (if isLeap y then 29 else 28)
  else if m = 4 ∨ m = 6 ∨ m = 9 ∨ m = 11 then 30 else 31

def daysBefore (m y : Nat) : Nat :=
  ((List.range (m - 1)).map (fun k => daysIn (k + 1) y)).sum

/-- The instant of a calendar date and time of day in UTC. -/
def date (y m d hh mm ss : Nat) : Time :=
  let days := 365 * (y - 1) + (y - 1) / 4 - (y - 1) / 100 + (y - 1) / 400 + daysBefore m y + (d - 1)
  ⟨(((days * 86400 + hh * 3600 + mm * 60 + ss) * 1000000000 : Nat) : Int)⟩

/-- The value of `time.Parse(time.RFC3339, s)` on texts of the shape
`2006-01-02T15:04:05Z`; other texts, among them those with fractional seconds
or a numeric offset, are not covered and read as errors. -/
def parseTime (s : String) : Option Time :=
  match s.data with
  | [y1, y2, y3, y4, c1, m1, m2, c2, d1, d2, c3, h1, h2, c4, n1, n2, c5, s1, s2, c6] =>
    if c1 = '-' ∧ c2 = '-' ∧ c3 = 'T' ∧ c4 = ':' ∧ c5 = ':' ∧ c6 = 'Z' then
      match digits [y1, y2, y3, y4], digits [m1, m2], digits [d1, d2],
          digits [h1, h2], digits [n1, n2], digits [s1, s2] with
      | some y, some m, some d, some hh, some mm, some ss =>
        if 1 ≤ m ∧ m ≤ 12 ∧ 1 ≤ d ∧ d ≤ daysIn m y ∧ hh ≤ 23 ∧ mm ≤ 59 ∧ ss ≤ 59 then
          some (date y m d hh mm ss)
        else none
      | _, _, _, _, _, _ => none
    else none
  | _ => none

/-- The function `strings.ToLower` on ASCII text. -/
def ToLower (s : String) : String := ⟨s.data.map Char.toLower⟩

/-- A library whose URIs are serialised to the text they were parsed from, as
`url.Parse` does for `at://alice.example`, and which recognises no key. -/
def lib : Lib :=
  { parseTime := parseTime
    ToLower := ToLower
    ParseURI := fun s => some ⟨s⟩
    ParsePublicDIDKey := fun _ => none }

def did : String := "did:plc:d"

def pds (endpoint : String) : List (String × plc.Service) :=
  [("atproto_pds", ⟨"AtprotoPersonalDataServer", endpoint⟩)]

/-- An `Op` entry of `did` with one alias and a PDS endpoint. -/
def opEntry (cid createdAt aka endpoint : String) : plc.OperationLogEntry :=
  { DID := did, CID := cid, CreatedAt := createdAt, Nullified := false
    Operation := .Op ⟨[aka], [], pds endpoint, [], none⟩ }

def tombstoneEntry (cid createdAt : String) : plc.OperationLogEntry :=
  { DID := did, CID := cid, CreatedAt := createdAt, Nullified := false
    Operation := .Tombstone ⟨"cid1"⟩ }

def alice : plc.OperationLogEntry :=
  opEntry "cid1" "2024-01-01T00:00:00Z" "alice.example" "https://pds1"

def alice2 : plc.OperationLogEntry :=
  opEntry "cid2" "2024-01-01T00:05:00Z" "alice2.example" "https://pds2"

def atAlice : plc.OperationLogEntry :=
  opEntry "cid1" "2024-01-01T00:00:00Z" "at://alice.example" "https://pds1"

def placeholder : plc.OperationLogEntry :=
  opEntry "cid3" "2024-01-01T00:05:00Z" "bob.example" "https://uwu"

def retired : plc.OperationLogEntry := tombstoneEntry "cid4" "2024-01-01T00:05:00Z"

/-- An exchange that answers 200 with `body`; no write is rejected. -/
def page (body : List Line) : PageEnv :=
  { fetch := .response 200 body
    logInsertFails := false
    acctUpsertFails := false
    rangeOrder := id
    logWriteTime := date 2024 1 1 0 6 0
    acctWriteTime := date 2024 1 1 0 6 1
    now := date 2024 1 1 0 6 2 }

def runtime : Runtime := NewRuntime DB.empty

/-- A runtime with an empty store whose newest record and last completed pass
are cached. -/
def runtimeAt (record completion : Time) : Runtime :=
  { NewRuntime DB.empty with lastRecordTimestamp := record, lastCompletionTimestamp := completion }

/-- A request at clock `now`; no query is rejected. -/
def reqAt (now : Time) : ReqEnv :=
  { now := now, nowCompletion := now, cursorReadFails := false, lookupFails := false }

/-- The three projected columns of the account row of `did`. -/
def projection (r : Runtime) : Option (String × String × String) :=
  (r.db.accountByDID did).map (fun a => (a.Handle, a.PDS, a.PLCTimestamp))

/-- The runtime after the page with `atAlice` and then the page with `retired`. -/
def retiredRuntime : Runtime :=
  ((runtime.backfillPage lib "" (page [.entry atAlice])).1.backfillPage lib
    "2024-01-01T00:00:00Z" (page [.entry retired])).1

/-- The runtime after the page with `atAlice`. -/
def aliceRuntime : Runtime := (runtime.backfillPage lib "" (page [.entry atAlice])).1

/-- The aliases of a rendered document, as text. -/
def aliases : Response Document → Option (List String)
  | .JSON doc => some (doc.AlsoKnownAs.map URI.text)
  | _ => none

/-- The document rendered for `atAlice`. -/
def aliceDocument : Document :=
  { Context := ["https://www.w3.org/ns/did/v1", "https://w3id.org/security/multikey/v1"]
    ID := ⟨"plc", "d"⟩
    AlsoKnownAs := [⟨"at://alice.example"⟩]
    Service := [⟨⟨"#atproto_pds"⟩, "AtprotoPersonalDataServer", "https://pds1"⟩]
    VerificationMethod := [] }

end Example

/-! # Theorems -/

/-! ## Pacing -/

theorem since_lt_iff (now t : Time) (d : Duration) (hd : minDuration < d) (hd2 : d ≤ maxDuration) :
    Since now t < d ↔ now.ns - t.ns < d := by
  unfold Since Time.Sub
  split_ifs with h1 h2
  · constructor
    · intro _; exact lt_trans h1 hd
    · intro _; exact hd
  · constructor
    · intro h; exact absurd h (not_lt.mpr hd2)
    · intro h; exact absurd (lt_of_lt_of_le h hd2) (not_lt.mpr (le_of_lt h2))
  · exact Iff.rfl

/-- C8. After `updateRateLimit(t)` at clock `now` on a limiter whose limit is
one of the two target rates, the limit is the caught-up rate 0.2 when
`now - t` is below ten minutes and the default rate 450/300 = 1.5 otherwise;
`SetLimit` is called exactly when the old limit differs from the desired one by
more than 0.0000001; both rates are below 500 requests per 300 seconds. -/
theorem C8_adaptive_pacing (r : Runtime) (now t : Time)
    (h : r.limiter.limit = defaultRateLimit ∨ r.limiter.limit = caughtUpRateLimit) :
    (r.updateRateLimit now t).limiter.limit
        = (if now.ns - t.ns < 10 * 60 * 1000000000 then caughtUpRateLimit else defaultRateLimit)
    ∧ ((r.updateRateLimit now t).limiter.setLimitCalls =
        if |r.limiter.limit
            - (if now.ns - t.ns < 10 * 60 * 1000000000 then caughtUpRateLimit
                else defaultRateLimit)| > 0.0000001
        then r.limiter.setLimitCalls + 1 else r.limiter.setLimitCalls)
    ∧ caughtUpRateLimit = 1 / 5 ∧ defaultRateLimit = 3 / 2
    ∧ caughtUpRateLimit < upstreamBudget ∧ defaultRateLimit < upstreamBudget := by
  have hs : Since now t < caughtUpThreshold ↔ now.ns - t.ns < 10 * 60 * 1000000000 := by
    have := since_lt_iff now t caughtUpThreshold
      (by norm_num [caughtUpThreshold, Minute, Second, minDuration])
      (by norm_num [caughtUpThreshold, Minute, Second, maxDuration])
    simpa [caughtUpThreshold, Minute, Second] using this
  refine ⟨?_, ?_, by norm_num [caughtUpRateLimit], by norm_num [defaultRateLimit],
    by norm_num [caughtUpRateLimit, upstreamBudget], by norm_num [defaultRateLimit, upstreamBudget]⟩
  · unfold Runtime.updateRateLimit
    by_cases hc : now.ns - t.ns < 10 * 60 * 1000000000
    · simp only [hs.mpr hc, hc, if_true]
      rcases h with h | h
      · have : |r.limiter.limit - caughtUpRateLimit| > 0.0000001 := by
          rw [h]; norm_num [defaultRateLimit, caughtUpRateLimit, lt_abs]
        rw [if_pos this]; rfl
      · have : ¬ |r.limiter.limit - caughtUpRateLimit| > 0.0000001 := by
          rw [h]; norm_num
        rw [if_neg this]; exact h
    · simp only [mt hs.mp hc, hc, if_false]
      rcases h with h | h
      · have : ¬ |r.limiter.limit - defaultRateLimit| > 0.0000001 := by
          rw [h]; norm_num
        rw [if_neg this]; exact h
      · have : |r.limiter.limit - defaultRateLimit| > 0.0000001 := by
          rw [h]; norm_num [defaultRateLimit, caughtUpRateLimit, lt_abs]
        rw [if_pos this]; rfl
  · unfold Runtime.updateRateLimit
    by_cases hc : now.ns - t.ns < 10 * 60 * 1000000000
    · simp only [hs.mpr hc, hc, if_true]
      split_ifs <;> simp [Limiter.SetLimit]
    · simp only [mt hs.mp hc, hc, if_false]
      split_ifs <;> simp [Limiter.SetLimit]

/-- A new runtime, whose limit is the default rate: a record one nanosecond
less than ten minutes old switches it to the caught-up rate with one call of
`SetLimit`; a record ten minutes old leaves it alone. -/
theorem C8_adaptive_pacing_witness :
    ((NewRuntime DB.empty).updateRateLimit ⟨600000000000⟩ ⟨1⟩).limiter.limit = caughtUpRateLimit
    ∧ ((NewRuntime DB.empty).updateRateLimit ⟨600000000000⟩ ⟨1⟩).limiter.setLimitCalls = 1
    ∧ ((NewRuntime DB.empty).updateRateLimit ⟨600000000000⟩ ⟨0⟩).limiter.setLimitCalls = 0 := by
  have h1 := C8_adaptive_pacing (NewRuntime DB.empty) ⟨600000000000⟩ ⟨1⟩ (Or.inl rfl)
  have h0 := C8_adaptive_pacing (NewRuntime DB.empty) ⟨600000000000⟩ ⟨0⟩ (Or.inl rfl)
  refine ⟨?_, ?_, ?_⟩
  · simpa using h1.1
  · rw [h1.2.1]
    norm_num [NewRuntime, defaultRateLimit, caughtUpRateLimit, lt_abs]
  · rw [h0.2.1]
    norm_num [NewRuntime, defaultRateLimit, caughtUpRateLimit]

/-! ## The staleness gate -/

theorem lastRecordTimestamp_fields (lib : Lib) (r : Runtime) (b : Bool) :
    (r.LastRecordTimestamp lib b).1.db = r.db
    ∧ (r.LastRecordTimestamp lib b).1.MaxDelay = r.MaxDelay
    ∧ (r.LastRecordTimestamp lib b).1.lastCompletionTimestamp = r.lastCompletionTimestamp := by
  unfold Runtime.LastRecordTimestamp
  split_ifs <;> try simp
  all_goals (split <;> try simp)
  all_goals (split <;> try simp)
  all_goals (split_ifs <;> simp)

theorem resolveDid_congr (lib : Lib) (r r1 : Runtime) (env : ReqEnv) (path : String)
    (h : r1.db = r.db) : r1.resolveDid lib env path = r.resolveDid lib env path := by
  unfold Runtime.resolveDid
  rw [h]

theorem resolveDid_ne_unavailable (lib : Lib) (r : Runtime) (env : ReqEnv) (path : String)
    (d : Duration) : r.resolveDid lib env path ≠ .ServiceUnavailable d := by
  unfold Runtime.resolveDid
  simp only
  split_ifs
  · simp
  · split
    · simp
    · split
      · simp
      · split <;> simp

/-- The response of `DidDoc` once `LastRecordTimestamp` has returned `ts`. -/
theorem didDoc_of_timestamp (lib : Lib) (r : Runtime) (env : ReqEnv) (path : String) (ts : Time)
    (hts : (r.LastRecordTimestamp lib env.cursorReadFails).2 = .ok ts) :
    (r.DidDoc lib env path).2 =
      if Since env.now ts > r.MaxDelay ∧ Since env.nowCompletion r.LastCompletion > r.MaxDelay
      then .ServiceUnavailable (Since env.now ts) else r.resolveDid lib env path := by
  obtain ⟨hdb, hmax, hlc⟩ := lastRecordTimestamp_fields lib r env.cursorReadFails
  unfold Runtime.DidDoc
  generalize r.LastRecordTimestamp lib env.cursorReadFails = p at hts hdb hmax hlc
  obtain ⟨r1, res⟩ := p
  simp only at hts hdb hmax hlc
  subst hts
  simp only [Runtime.LastCompletion, hmax, hlc, resolveDid_congr lib r r1 env path hdb]
  split_ifs <;> simp_all

theorem didDoc_db (lib : Lib) (r : Runtime) (env : ReqEnv) (path : String) :
    (r.DidDoc lib env path).1.db = r.db := by
  have hdb := (lastRecordTimestamp_fields lib r env.cursorReadFails).1
  unfold Runtime.DidDoc
  generalize r.LastRecordTimestamp lib env.cursorReadFails = p at hdb
  obtain ⟨r1, res⟩ := p
  cases res with
  | error e => exact hdb
  | ok ts =>
    simp only
    split_ifs <;> exact hdb

theorem didDoc_of_fresh (lib : Lib) (r : Runtime) (env : ReqEnv) (path : String)
    (h : Fresh lib r env) : (r.DidDoc lib env path).2 = r.resolveDid lib env path := by
  obtain ⟨ts, hts, hn⟩ := h
  rw [didDoc_of_timestamp lib r env path ts hts, if_neg hn]

/-- C1. Staleness gate of `DidDoc`: with `ts` the result of
`LastRecordTimestamp`, `delay = now - ts` and `completionDelay = now -
LastCompletion`, the response is the stale-mirror response (service
unavailable) if and only if `delay > MaxDelay` and `completionDelay >
MaxDelay`; in every other case `DidDoc` goes on to resolve the identity. -/
theorem C1_staleness_gate (lib : Lib) (r : Runtime) (env : ReqEnv) (path : String) (ts : Time)
    (hts : (r.LastRecordTimestamp lib env.cursorReadFails).2 = .ok ts) :
    ((∃ d, (r.DidDoc lib env path).2 = .ServiceUnavailable d) ↔
        (Since env.now ts > r.MaxDelay ∧ Since env.nowCompletion r.LastCompletion > r.MaxDelay))
    ∧ ((Since env.now ts > r.MaxDelay ∧ Since env.nowCompletion r.LastCompletion > r.MaxDelay) →
        (r.DidDoc lib env path).2 = .ServiceUnavailable (Since env.now ts))
    ∧ (¬ (Since env.now ts > r.MaxDelay ∧ Since env.nowCompletion r.LastCompletion > r.MaxDelay) →
        (r.DidDoc lib env path).2 = r.resolveDid lib env path) := by
  rw [didDoc_of_timestamp lib r env path ts hts]
  refine ⟨?_, ?_, ?_⟩
  · constructor
    · rintro ⟨d, hd⟩
      by_contra hn
      rw [if_neg hn] at hd
      exact resolveDid_ne_unavailable lib r env path d hd
    · intro h
      exact ⟨_, if_pos h⟩
  · intro h; exact if_pos h
  · intro h; exact if_neg h

/-- The example of the claim: `MaxDelay` is five minutes and the newest record
is six minutes old; a pass completed six minutes ago gives the stale-mirror
response, a pass completed one minute ago gives the document. -/
theorem C1_staleness_gate_witness :
    Example.aliceRuntime.MaxDelay = 5 * Minute
    ∧ ({ Example.aliceRuntime with lastCompletionTimestamp := Example.date 2024 1 1 0 0 0 }.DidDoc
        Example.lib (Example.reqAt (Example.date 2024 1 1 0 6 0)) "/did:plc:d").2
      = .ServiceUnavailable (6 * Minute)
    ∧ ({ Example.aliceRuntime with lastCompletionTimestamp := Example.date 2024 1 1 0 5 0 }.DidDoc
        Example.lib (Example.reqAt (Example.date 2024 1 1 0 6 0)) "/did:plc:d").2
      = .JSON Example.aliceDocument := by
  refine ⟨rfl, ?_, ?_⟩
  · have h := (C1_staleness_gate Example.lib
      { Example.aliceRuntime with lastCompletionTimestamp := Example.date 2024 1 1 0 0 0 }
      (Example.reqAt (Example.date 2024 1 1 0 6 0)) "/did:plc:d" (Example.date 2024 1 1 0 0 0)
      (by rfl)).2.1 (by decide)
    rw [h]; decide
  · have h := (C1_staleness_gate Example.lib
      { Example.aliceRuntime with lastCompletionTimestamp := Example.date 2024 1 1 0 5 0 }
      (Example.reqAt (Example.date 2024 1 1 0 6 0)) "/did:plc:d" (Example.date 2024 1 1 0 0 0)
      (by rfl)).2.2 (by decide)
    rw [h]; decide

/-! ## The store: inserts that ignore conflicts -/

theorem insertLogEntry_log (now : Time) (d : DB) (row : PLCLogEntry) :
    (DB.insertLogEntry now d row).log =
      if d.log.any (fun x => x.DID == row.DID && x.CID == row.CID) then d.log
      else d.log ++ [{ row with ID := d.logSeq + 1, CreatedAt := now }] := by
  unfold DB.insertLogEntry
  split_ifs <;> rfl

theorem insertLogEntry_accounts (now : Time) (d : DB) (row : PLCLogEntry) :
    (DB.insertLogEntry now d row).accounts = d.accounts := by
  unfold DB.insertLogEntry
  split_ifs <;> rfl

theorem insertLogEntry_of_stored (now : Time) (d : DB) (row : PLCLogEntry)
    (h : Stored d.log row) : (DB.insertLogEntry now d row).log = d.log := by
  rw [insertLogEntry_log, if_pos]
  obtain ⟨x, hx, h1, h2⟩ := h
  simp only [List.any_eq_true, Bool.and_eq_true, beq_iff_eq]
  exact ⟨x, hx, h1, h2⟩

theorem stored_insertLogEntry_self (now : Time) (d : DB) (row : PLCLogEntry) :
    Stored (DB.insertLogEntry now d row).log row := by
  rw [insertLogEntry_log]
  split_ifs with h
  · simp only [List.any_eq_true, Bool.and_eq_true, beq_iff_eq] at h
    exact h
  · exact ⟨_, List.mem_append_right _ (List.mem_singleton_self _), rfl, rfl⟩

theorem stored_insertLogEntry_mono (now : Time) (d : DB) (row other : PLCLogEntry)
    (h : Stored d.log other) : Stored (DB.insertLogEntry now d row).log other := by
  rw [insertLogEntry_log]
  split_ifs
  · exact h
  · obtain ⟨x, hx, h12⟩ := h
    exact ⟨x, List.mem_append_left _ hx, h12⟩

theorem createLogEntries_accounts (now : Time) (rows : List PLCLogEntry) (d : DB) :
    (d.createLogEntries now rows).accounts = d.accounts := by
  induction rows generalizing d with
  | nil => rfl
  | cons row rows ih =>
    simp only [DB.createLogEntries, List.foldl_cons] at ih ⊢
    rw [ih, insertLogEntry_accounts]

theorem stored_createLogEntries_mono (now : Time) (rows : List PLCLogEntry) (d : DB)
    (other : PLCLogEntry) (h : Stored d.log other) :
    Stored (d.createLogEntries now rows).log other := by
  induction rows generalizing d with
  | nil => exact h
  | cons row rows ih =>
    simp only [DB.createLogEntries, List.foldl_cons] at ih ⊢
    exact ih _ (stored_insertLogEntry_mono now d row other h)

theorem stored_createLogEntries (now : Time) (rows : List PLCLogEntry) (d : DB) :
    ∀ row ∈ rows, Stored (d.createLogEntries now rows).log row := by
  induction rows generalizing d with
  | nil => intro row h; cases h
  | cons r rows ih =>
    intro row hrow
    simp only [DB.createLogEntries, List.foldl_cons]
    rcases List.mem_cons.mp hrow with h | h
    · subst h
      exact stored_createLogEntries_mono now rows _ _ (stored_insertLogEntry_self now d row)
    · exact ih _ row h

theorem createLogEntries_of_stored (now : Time) (rows : List PLCLogEntry) (d : DB)
    (h : ∀ row ∈ rows, Stored d.log row) : (d.createLogEntries now rows).log = d.log := by
  induction rows generalizing d with
  | nil => rfl
  | cons r rows ih =>
    simp only [DB.createLogEntries, List.foldl_cons] at ih ⊢
    have h1 := insertLogEntry_of_stored now d r (h r (List.mem_cons_self _ _))
    rw [ih, h1]
    intro row hrow
    rw [h1]
    exact h row (List.mem_cons_of_mem _ hrow)

theorem uniqueKeys_insertLogEntry (now : Time) (d : DB) (row : PLCLogEntry)
    (h : UniqueKeys d.log) : UniqueKeys (DB.insertLogEntry now d row).log := by
  rw [insertLogEntry_log]
  split_ifs with hc
  · exact h
  · unfold UniqueKeys
    rw [List.pairwise_append]
    refine ⟨h, List.pairwise_singleton _ _, ?_⟩
    intro a ha b hb
    rw [List.mem_singleton] at hb
    subst hb
    simp only [List.any_eq_true, Bool.and_eq_true, beq_iff_eq, not_exists, not_and] at hc
    intro hab
    exact hc a ha hab.1 hab.2

theorem uniqueKeys_createLogEntries (now : Time) (rows : List PLCLogEntry) (d : DB)
    (h : UniqueKeys d.log) : UniqueKeys (d.createLogEntries now rows).log := by
  induction rows generalizing d with
  | nil => exact h
  | cons r rows ih =>
    simp only [DB.createLogEntries, List.foldl_cons] at ih ⊢
    exact ih _ (uniqueKeys_insertLogEntry now d r h)

/-! ## The store: upserts -/

theorem upsertAccountInfo_accounts (now : Time) (d : DB) (v : AccountInfo) :
    (DB.upsertAccountInfo now d v).accounts =
      if d.accounts.any (fun x => x.DID == v.DID) then
        d.accounts.map (fun x =>
          if x.DID = v.DID then
            { x with PLCTimestamp := v.PLCTimestamp, PDS := v.PDS, Handle := v.Handle }
          else x)
      else d.accounts ++ [{ v with ID := d.acctSeq + 1, CreatedAt := now, UpdatedAt := now }] := by
  unfold DB.upsertAccountInfo
  split_ifs <;> rfl

theorem upsertAccountInfo_log (now : Time) (d : DB) (v : AccountInfo) :
    (DB.upsertAccountInfo now d v).log = d.log := by
  unfold DB.upsertAccountInfo
  split_ifs <;> rfl

theorem upsertAccountInfos_log (now : Time) (vs : List AccountInfo) (d : DB) :
    (d.upsertAccountInfos now vs).log = d.log := by
  induction vs generalizing d with
  | nil => rfl
  | cons v vs ih =>
    simp only [DB.upsertAccountInfos, List.foldl_cons] at ih ⊢
    rw [ih, upsertAccountInfo_log]

theorem settled_upsertAccountInfo_self (now : Time) (d : DB) (v : AccountInfo) :
    Settled (DB.upsertAccountInfo now d v).accounts v := by
  rw [upsertAccountInfo_accounts]
  split_ifs with h
  · simp only [List.any_eq_true, beq_iff_eq] at h
    obtain ⟨x, hx, hxv⟩ := h
    constructor
    · refine ⟨_, List.mem_map_of_mem _ hx, ?_⟩
      simp [hxv]
    · intro y hy hyv
      obtain ⟨z, _, rfl⟩ := List.mem_map.mp hy
      by_cases hz : z.DID = v.DID
      · simp [hz]
      · simp only [if_neg hz] at hyv
        exact absurd hyv hz
  · simp only [List.any_eq_true, beq_iff_eq, not_exists, not_and] at h
    constructor
    · exact ⟨_, List.mem_append_right _ (List.mem_singleton_self _), rfl⟩
    · intro y hy hyv
      rcases List.mem_append.mp hy with hy | hy
      · exact absurd hyv (h y hy)
      · rw [List.mem_singleton] at hy
        subst hy
        exact ⟨rfl, rfl, rfl⟩

theorem settled_upsertAccountInfo_other (now : Time) (d : DB) (v w : AccountInfo)
    (hne : w.DID ≠ v.DID) (h : Settled d.accounts v) :
    Settled (DB.upsertAccountInfo now d w).accounts v := by
  rw [upsertAccountInfo_accounts]
  obtain ⟨⟨x, hx, hxv⟩, hall⟩ := h
  have hxw : x.DID ≠ w.DID := fun e => hne (e ▸ hxv)
  split_ifs with hc
  · constructor
    · refine ⟨_, List.mem_map_of_mem _ hx, ?_⟩
      simp only [if_neg hxw]
      exact hxv
    · intro y hy hyv
      obtain ⟨z, hz, rfl⟩ := List.mem_map.mp hy
      by_cases hzw : z.DID = w.DID
      · simp only [if_pos hzw] at hyv
        exact absurd (hzw.symm.trans hyv) hne
      · simp only [if_neg hzw] at hyv ⊢
        exact hall z hz hyv
  · constructor
    · exact ⟨x, List.mem_append_left _ hx, hxv⟩
    · intro y hy hyv
      rcases List.mem_append.mp hy with hy | hy
      · exact hall y hy hyv
      · rw [List.mem_singleton] at hy
        subst hy
        exact absurd hyv hne

theorem upsertAccountInfo_of_settled (now : Time) (d : DB) (v : AccountInfo)
    (h : Settled d.accounts v) : (DB.upsertAccountInfo now d v).accounts = d.accounts := by
  rw [upsertAccountInfo_accounts]
  obtain ⟨⟨x, hx, hxv⟩, hall⟩ := h
  rw [if_pos (by simp only [List.any_eq_true, beq_iff_eq]; exact ⟨x, hx, hxv⟩)]
  conv_rhs => rw [← List.map_id d.accounts]
  apply List.map_congr_left
  intro y hy
  by_cases hyv : y.DID = v.DID
  · obtain ⟨h1, h2, h3⟩ := hall y hy hyv
    simp only [if_pos hyv, id, ← h1, ← h2, ← h3]
  · simp [hyv]

theorem settled_upsertAccountInfos_others (now : Time) (ws : List AccountInfo) (d : DB)
    (v : AccountInfo) (hne : ∀ w ∈ ws, w.DID ≠ v.DID) (h : Settled d.accounts v) :
    Settled (d.upsertAccountInfos now ws).accounts v := by
  induction ws generalizing d with
  | nil => exact h
  | cons w ws ih =>
    simp only [DB.upsertAccountInfos, List.foldl_cons] at ih ⊢
    exact ih _ (fun u hu => hne u (List.mem_cons_of_mem _ hu))
      (settled_upsertAccountInfo_other now d v w (hne w (List.mem_cons_self _ _)) h)

theorem settled_upsertAccountInfos (now : Time) (vs : List AccountInfo) (d : DB)
    (hd : vs.Pairwise (fun a b => a.DID ≠ b.DID)) :
    ∀ v ∈ vs, Settled (d.upsertAccountInfos now vs).accounts v := by
  induction vs generalizing d with
  | nil => intro v h; cases h
  | cons u vs ih =>
    intro v hv
    rw [List.pairwise_cons] at hd
    simp only [DB.upsertAccountInfos, List.foldl_cons]
    rcases List.mem_cons.mp hv with h | h
    · subst h
      exact settled_upsertAccountInfos_others now vs _ v (fun w hw => (hd.1 w hw).symm)
        (settled_upsertAccountInfo_self now d v)
    · exact ih _ hd.2 v h

theorem upsertAccountInfos_of_settled (now : Time) (vs : List AccountInfo) (d : DB)
    (h : ∀ v ∈ vs, Settled d.accounts v) : (d.upsertAccountInfos now vs).accounts = d.accounts := by
  induction vs generalizing d with
  | nil => rfl
  | cons u vs ih =>
    simp only [DB.upsertAccountInfos, List.foldl_cons] at ih ⊢
    have h1 := upsertAccountInfo_of_settled now d u (h u (List.mem_cons_self _ _))
    rw [ih, h1]
    intro v hv
    rw [h1]
    exact h v (List.mem_cons_of_mem _ hv)

/-! ## The decode loop -/

theorem decodeLoop_eq_none_iff (lib : Lib) (body : List Line) (ds : DecodeState) :
    decodeLoop lib ds body = none ↔ Line.malformed ∈ body := by
  induction body generalizing ds with
  | nil => simp [decodeLoop]
  | cons l body ih =>
    cases l with
    | malformed => simp [decodeLoop]
    | entry e => simp [decodeLoop, ih]

theorem decodeLoop_eq_some (lib : Lib) (body : List Line) (ds ds1 : DecodeState)
    (h : decodeLoop lib ds body = some ds1) :
    ds1 = (entriesOf body).foldl (decodeEntry lib) ds := by
  induction body generalizing ds with
  | nil => simp [decodeLoop] at h; simp [entriesOf, h]
  | cons l body ih =>
    cases l with
    | malformed => simp [decodeLoop] at h
    | entry e =>
      simp only [decodeLoop] at h
      simpa [entriesOf] using ih _ h

theorem decodeLoop_entries (lib : Lib) (es : List plc.OperationLogEntry) (ds : DecodeState) :
    decodeLoop lib ds (es.map Line.entry) = some (es.foldl (decodeEntry lib) ds) := by
  induction es generalizing ds with
  | nil => rfl
  | cons e es ih => simp [decodeLoop, ih]

theorem accountInfoFromOp_DID (e : plc.OperationLogEntry) : (AccountInfoFromOp e).DID = e.DID := by
  unfold AccountInfoFromOp
  simp only
  split <;> split <;> rfl

theorem accountInfoFromOp_PLCTimestamp (e : plc.OperationLogEntry) :
    (AccountInfoFromOp e).PLCTimestamp = e.CreatedAt := by
  unfold AccountInfoFromOp
  simp only
  split <;> split <;> rfl

theorem decodeEntry_newEntries (lib : Lib) (ds : DecodeState) (e : plc.OperationLogEntry) :
    (decodeEntry lib ds e).newEntries =
      if isBogus e then ds.newEntries else ds.newEntries ++ [PLCLogEntryFromOp e] := by
  unfold decodeEntry isBogus
  simp only [beq_iff_eq]
  split_ifs <;> split <;> rfl

theorem decodeEntry_mapInfos (lib : Lib) (ds : DecodeState) (e : plc.OperationLogEntry) :
    (decodeEntry lib ds e).mapInfos =
      if isBogus e then ds.mapInfos else mapSet ds.mapInfos e.DID (AccountInfoFromOp e) := by
  unfold decodeEntry isBogus
  simp only [beq_iff_eq, accountInfoFromOp_DID]
  split_ifs <;> split <;> rfl

theorem decodeEntry_cursor (lib : Lib) (ds : DecodeState) (e : plc.OperationLogEntry) :
    (decodeEntry lib ds e).cursor = e.CreatedAt := by
  unfold decodeEntry
  simp only
  split_ifs <;> split <;> rfl

theorem decodeEntry_lastTimestamp (lib : Lib) (ds : DecodeState) (e : plc.OperationLogEntry) :
    (decodeEntry lib ds e).lastTimestamp = (lib.parseTime e.CreatedAt).getD ds.lastTimestamp := by
  unfold decodeEntry
  simp only [PLCLogEntryFromOp]
  split_ifs <;> split <;> simp_all

/-- The log rows collected from a list of entries: those of the entries that
are not skipped, in order. -/
theorem fold_newEntries (lib : Lib) (es : List plc.OperationLogEntry) (ds : DecodeState) :
    (es.foldl (decodeEntry lib) ds).newEntries =
      ds.newEntries ++ (es.filter (fun e => !isBogus e)).map PLCLogEntryFromOp := by
  induction es generalizing ds with
  | nil => simp
  | cons e es ih =>
    rw [List.foldl_cons, ih, decodeEntry_newEntries]
    by_cases hb : isBogus e = true
    · simp [hb]
    · simp [hb]

theorem fold_concat (lib : Lib) (es : List plc.OperationLogEntry) (e : plc.OperationLogEntry)
    (ds : DecodeState) :
    (es ++ [e]).foldl (decodeEntry lib) ds = decodeEntry lib (es.foldl (decodeEntry lib) ds) e := by
  simp [List.foldl_append]

/-! ## The map of account projections -/

theorem mem_mapSet_self {V : Type} (m : List (String × V)) (k : String) (v : V) :
    (k, v) ∈ mapSet m k v := by
  unfold mapSet
  split_ifs with h
  · simp only [List.any_eq_true, beq_iff_eq] at h
    obtain ⟨p, hp, hpk⟩ := h
    exact List.mem_map.mpr ⟨p, hp, by simp [hpk]⟩
  · exact List.mem_append_right _ (List.mem_singleton_self _)

theorem mem_mapSet_of_ne {V : Type} (m : List (String × V)) (k : String) (v : V)
    (p : String × V) (hp : p ∈ m) (hne : p.1 ≠ k) : p ∈ mapSet m k v := by
  unfold mapSet
  split_ifs with h
  · exact List.mem_map.mpr ⟨p, hp, by simp [hne]⟩
  · exact List.mem_append_left _ hp

theorem mem_mapSet {V : Type} (m : List (String × V)) (k : String) (v : V)
    (p : String × V) (hp : p ∈ mapSet m k v) : p = (k, v) ∨ (p ∈ m ∧ p.1 ≠ k) := by
  unfold mapSet at hp
  split_ifs at hp with h
  · obtain ⟨q, hq, rfl⟩ := List.mem_map.mp hp
    by_cases hqk : q.1 = k
    · left; simp [hqk]
    · right; simp only [if_neg hqk]; exact ⟨hq, hqk⟩
  · simp only [List.any_eq_true, beq_iff_eq, not_exists, not_and] at h
    rcases List.mem_append.mp hp with hp | hp
    · right; exact ⟨hp, h p hp⟩
    · left; exact List.mem_singleton.mp hp

theorem mapSet_keys {V : Type} (m : List (String × V)) (k : String) (v : V) :
    (mapSet m k v).map Prod.fst =
      if k ∈ m.map Prod.fst then m.map Prod.fst else m.map Prod.fst ++ [k] := by
  unfold mapSet
  have hiff : (m.any (fun p => p.1 == k) = true) ↔ k ∈ m.map Prod.fst := by
    simp only [List.any_eq_true, beq_iff_eq, List.mem_map]
  by_cases h : k ∈ m.map Prod.fst
  · rw [if_pos (hiff.mpr h), if_pos h, List.map_map]
    apply List.map_congr_left
    intro p _
    by_cases hpk : p.1 = k
    · simp [hpk]
    · simp [hpk]
  · rw [if_neg (mt hiff.mp h), if_neg h]
    simp

theorem keyedByDID_mapSet (m : List (String × AccountInfo)) (v : AccountInfo)
    (h : KeyedByDID m) : KeyedByDID (mapSet m v.DID v) := by
  constructor
  · rw [mapSet_keys]
    split_ifs with hk
    · exact h.1
    · exact List.Nodup.append h.1 (List.nodup_singleton _) (by
        intro a ha hb
        rw [List.mem_singleton] at hb
        subst hb
        exact hk ha)
  · intro p hp
    rcases mem_mapSet m v.DID v p hp with rfl | ⟨hp, _⟩
    · rfl
    · exact h.2 p hp

theorem keyedByDID_decodeEntry (lib : Lib) (ds : DecodeState) (e : plc.OperationLogEntry)
    (h : KeyedByDID ds.mapInfos) : KeyedByDID (decodeEntry lib ds e).mapInfos := by
  rw [decodeEntry_mapInfos]
  split_ifs
  · exact h
  · have := keyedByDID_mapSet ds.mapInfos (AccountInfoFromOp e) h
    rwa [accountInfoFromOp_DID] at this

theorem keyedByDID_fold (lib : Lib) (es : List plc.OperationLogEntry) (ds : DecodeState)
    (h : KeyedByDID ds.mapInfos) : KeyedByDID (es.foldl (decodeEntry lib) ds).mapInfos := by
  induction es generalizing ds with
  | nil => exact h
  | cons e es ih => exact ih _ (keyedByDID_decodeEntry lib ds e h)

theorem keyedByDID_init (cursor : String) : KeyedByDID (DecodeState.init cursor).mapInfos :=
  ⟨List.nodup_nil, fun _ hp => by cases hp⟩

theorem keyedByDID_values (m : List (String × AccountInfo)) (h : KeyedByDID m) :
    (m.map Prod.snd).Pairwise (fun a b => a.DID ≠ b.DID) := by
  rw [List.pairwise_map]
  have h1 := h.1
  rw [List.Nodup, List.pairwise_map] at h1
  refine List.Pairwise.imp_of_mem ?_ h1
  intro a b ha hb hab
  rwa [h.2 a ha, h.2 b hb]

/-- Entries that are skipped or belong to another identity leave the
projection of `did` in the map. -/
theorem fold_keeps_projection (lib : Lib) (es : List plc.OperationLogEntry) (ds : DecodeState)
    (did : String) (v : AccountInfo) (h : (did, v) ∈ ds.mapInfos)
    (hes : ∀ e ∈ es, isBogus e = true ∨ e.DID ≠ did) :
    (did, v) ∈ (es.foldl (decodeEntry lib) ds).mapInfos := by
  induction es generalizing ds with
  | nil => exact h
  | cons e es ih =>
    rw [List.foldl_cons]
    apply ih
    · rw [decodeEntry_mapInfos]
      split_ifs with hb
      · exact h
      · rcases hes e (List.mem_cons_self _ _) with h1 | h1
        · exact absurd h1 hb
        · exact mem_mapSet_of_ne _ _ _ _ h (fun hd => h1 hd.symm)
    · intro e2 he2
      exact hes e2 (List.mem_cons_of_mem _ he2)

/-- The projection the map holds for `did` after a page: that of the last entry
of `did` that is not skipped. -/
theorem fold_projection (lib : Lib) (pre post : List plc.OperationLogEntry)
    (e : plc.OperationLogEntry) (ds : DecodeState) (hb : isBogus e = false)
    (hpost : ∀ x ∈ post, isBogus x = true ∨ x.DID ≠ e.DID) :
    (e.DID, AccountInfoFromOp e) ∈ ((pre ++ e :: post).foldl (decodeEntry lib) ds).mapInfos := by
  rw [List.foldl_append, List.foldl_cons]
  apply fold_keeps_projection lib post _ _ _ _ hpost
  rw [decodeEntry_mapInfos, hb]
  exact mem_mapSet_self _ _ _

theorem settled_find (accounts : List AccountInfo) (v : AccountInfo) (h : Settled accounts v) :
    ∃ x, accounts.find? (fun a => a.DID == v.DID) = some x ∧ x.DID = v.DID ∧
      x.PLCTimestamp = v.PLCTimestamp ∧ x.PDS = v.PDS ∧ x.Handle = v.Handle := by
  obtain ⟨⟨y, hy, hyv⟩, hall⟩ := h
  cases hf : accounts.find? (fun a => a.DID == v.DID) with
  | none =>
    rw [List.find?_eq_none] at hf
    exact absurd (by simpa using hyv) (hf y hy)
  | some x =>
    have hx := List.mem_of_find?_eq_some hf
    have hxv : x.DID = v.DID := by simpa using List.find?_some hf
    exact ⟨x, rfl, hxv, hall x hx hxv⟩

/-! ## One iteration of the pagination loop -/

theorem updateRateLimit_db (r : Runtime) (now t : Time) : (r.updateRateLimit now t).db = r.db := rfl

theorem updateRateLimit_lastRecordTimestamp (r : Runtime) (now t : Time) :
    (r.updateRateLimit now t).lastRecordTimestamp = r.lastRecordTimestamp := rfl

/-- The ways an iteration ends: without a write; with the log written and the
account upsert rejected; or with both writes made and the cursor advanced. -/
theorem backfillPage_cases (lib : Lib) (r : Runtime) (cursor : String) (env : PageEnv) :
    ((r.backfillPage lib cursor env).1 = r ∧ ∀ c, (r.backfillPage lib cursor env).2 ≠ .next c)
    ∨ ∃ body ds, env.fetch = .response 200 body
        ∧ decodeLoop lib (DecodeState.init cursor) body = some ds
        ∧ ds.newEntries ≠ [] ∧ ds.cursor ≠ cursor ∧ env.logInsertFails = false
        ∧ ((env.acctUpsertFails = true
            ∧ (r.backfillPage lib cursor env).2 = .err "inserting acct info into database"
            ∧ (r.backfillPage lib cursor env).1.db
                = r.db.createLogEntries env.logWriteTime ds.newEntries
            ∧ (r.backfillPage lib cursor env).1.lastRecordTimestamp = r.lastRecordTimestamp)
          ∨ (env.acctUpsertFails = false
            ∧ (r.backfillPage lib cursor env).2 = .next ds.cursor
            ∧ (r.backfillPage lib cursor env).1.db
                = (r.db.createLogEntries env.logWriteTime ds.newEntries).upsertAccountInfos
                    env.acctWriteTime (env.rangeOrder (ds.mapInfos.map Prod.snd))
            ∧ (r.backfillPage lib cursor env).1.lastRecordTimestamp
                = if ds.lastTimestamp.IsZero then r.lastRecordTimestamp else ds.lastTimestamp)) := by
  unfold Runtime.backfillPage
  cases hf : env.fetch with
  | requestError => left; simp
  | sendError => left; simp
  | response code body =>
    simp only
    by_cases hcode : code = 200
    · subst hcode
      simp only [ne_eq, not_true_eq_false, if_false]
      cases hd : decodeLoop lib (DecodeState.init cursor) body with
      | none => left; simp
      | some ds =>
        simp only
        by_cases hcu : ds.newEntries.length = 0 ∨ ds.cursor = cursor
        · left; rw [if_pos hcu]; simp
        · rw [if_neg hcu]
          rw [not_or] at hcu
          by_cases hl : env.logInsertFails = true
          · left; simp [hl]
          · rw [if_neg hl]
            right
            refine ⟨body, ds, rfl, hd, ?_, hcu.2, by simpa using hl, ?_⟩
            · intro h0; exact hcu.1 (by simp [h0])
            · by_cases ha : env.acctUpsertFails = true
              · left; simp [ha]
              · right
                rw [if_neg ha]
                refine ⟨by simpa using ha, ?_, ?_, ?_⟩
                · split_ifs <;> rfl
                · split_ifs <;> rfl
                · by_cases hz : ds.lastTimestamp.IsZero = true
                  · simp [hz]
                  · simp [hz, updateRateLimit_lastRecordTimestamp]
    · left; simp [hcode]

/-! ## Persistence of a page -/

theorem decodeEntry_mapInfos_congr (lib : Lib) (ds1 ds2 : DecodeState) (e : plc.OperationLogEntry)
    (h : ds1.mapInfos = ds2.mapInfos) :
    (decodeEntry lib ds1 e).mapInfos = (decodeEntry lib ds2 e).mapInfos := by
  rw [decodeEntry_mapInfos, decodeEntry_mapInfos, h]

theorem fold_mapInfos_congr (lib : Lib) (es : List plc.OperationLogEntry) (ds1 ds2 : DecodeState)
    (h : ds1.mapInfos = ds2.mapInfos) :
    (es.foldl (decodeEntry lib) ds1).mapInfos = (es.foldl (decodeEntry lib) ds2).mapInfos := by
  induction es generalizing ds1 ds2 with
  | nil => exact h
  | cons e es ih => exact ih _ _ (decodeEntry_mapInfos_congr lib ds1 ds2 e h)

/-- The two batches of a page do not depend on the cursor it was asked with. -/
theorem decodeLoop_batches (lib : Lib) (body : List Line) (c1 c2 : String) (ds1 ds2 : DecodeState)
    (h1 : decodeLoop lib (DecodeState.init c1) body = some ds1)
    (h2 : decodeLoop lib (DecodeState.init c2) body = some ds2) :
    ds2.newEntries = ds1.newEntries ∧ ds2.mapInfos = ds1.mapInfos := by
  rw [decodeLoop_eq_some lib body _ _ h1, decodeLoop_eq_some lib body _ _ h2]
  exact ⟨by rw [fold_newEntries, fold_newEntries]; rfl, fold_mapInfos_congr lib _ _ _ rfl⟩

theorem decodeLoop_keyed (lib : Lib) (body : List Line) (c : String) (ds : DecodeState)
    (h : decodeLoop lib (DecodeState.init c) body = some ds) : KeyedByDID ds.mapInfos := by
  rw [decodeLoop_eq_some lib body _ _ h]
  exact keyedByDID_fold lib _ _ (keyedByDID_init c)

/-- After the upsert of a page's projections, in whatever order the map was
ranged over, every projection of the map is settled in the account table. -/
theorem settled_after_upsert (now : Time) (d : DB) (m : List (String × AccountInfo))
    (order : List AccountInfo → List AccountInfo) (hperm : ∀ l, (order l).Perm l)
    (hm : KeyedByDID m) :
    ∀ v ∈ m.map Prod.snd,
      Settled (d.upsertAccountInfos now (order (m.map Prod.snd))).accounts v := by
  intro v hv
  apply settled_upsertAccountInfos now _ d
  · exact ((hperm _).pairwise_iff (fun {a b} (h : a.DID ≠ b.DID) => h.symm)).mpr
      (keyedByDID_values m hm)
  · exact (hperm _).mem_iff.mpr hv

/-- C2. Idempotent ingestion: when an iteration has persisted a page, running
the persistence of the same page again (asked with any cursor, at any time, in
any order of the map, with or without a rejected write) leaves the log rows and
the account rows as they were; no two log rows share their `(did, cid)` if none
did before. -/
theorem C2_idempotent_ingestion (lib : Lib) (r : Runtime) (c1 c2 c : String)
    (env1 env2 : PageEnv) (hsame : env2.fetch = env1.fetch)
    (hperm1 : ∀ l, (env1.rangeOrder l).Perm l) (hperm2 : ∀ l, (env2.rangeOrder l).Perm l)
    (hfirst : (r.backfillPage lib c1 env1).2 = .next c) :
    (((r.backfillPage lib c1 env1).1).backfillPage lib c2 env2).1.db.log
        = (r.backfillPage lib c1 env1).1.db.log
    ∧ (((r.backfillPage lib c1 env1).1).backfillPage lib c2 env2).1.db.accounts
        = (r.backfillPage lib c1 env1).1.db.accounts
    ∧ (UniqueKeys r.db.log →
        UniqueKeys (((r.backfillPage lib c1 env1).1).backfillPage lib c2 env2).1.db.log) := by
  rcases backfillPage_cases lib r c1 env1 with ⟨_, hno⟩ | ⟨body, ds, hf, hd, _, _, _, hw⟩
  · exact absurd hfirst (hno c)
  rcases hw with ⟨_, herr, _, _⟩ | ⟨_, _, hdb, _⟩
  · rw [herr] at hfirst; cases hfirst
  generalize r.backfillPage lib c1 env1 = p1 at hdb ⊢
  obtain ⟨r1, res1⟩ := p1
  simp only at hdb ⊢
  have hlog1 : r1.db.log = (r.db.createLogEntries env1.logWriteTime ds.newEntries).log := by
    rw [hdb, upsertAccountInfos_log]
  have hstored : ∀ row ∈ ds.newEntries, Stored r1.db.log row := by
    intro row hrow
    rw [hlog1]
    exact stored_createLogEntries _ _ _ row hrow
  have hsettled : ∀ v ∈ ds.mapInfos.map Prod.snd, Settled r1.db.accounts v := by
    rw [hdb]
    exact settled_after_upsert _ _ _ _ hperm1 (decodeLoop_keyed lib body c1 ds hd)
  have hkeys : UniqueKeys r.db.log → UniqueKeys r1.db.log := by
    intro h
    rw [hlog1]
    exact uniqueKeys_createLogEntries _ _ _ h
  have key : (r1.backfillPage lib c2 env2).1.db.log = r1.db.log
      ∧ (r1.backfillPage lib c2 env2).1.db.accounts = r1.db.accounts := by
    rcases backfillPage_cases lib r1 c2 env2 with ⟨h, _⟩ | ⟨body2, ds2, hf2, hd2, _, _, _, hw2⟩
    · rw [h]; exact ⟨rfl, rfl⟩
    have hb : body2 = body := by
      rw [hsame, hf] at hf2
      injection hf2 with _ hbody
      exact hbody.symm
    subst hb
    obtain ⟨hne, hmi⟩ := decodeLoop_batches lib body2 c1 c2 ds ds2 hd hd2
    rcases hw2 with ⟨_, _, hdb2, _⟩ | ⟨_, _, hdb2, _⟩
    · rw [hdb2, hne]
      exact ⟨createLogEntries_of_stored _ _ _ hstored, createLogEntries_accounts _ _ _⟩
    · rw [hdb2, hne, hmi]
      constructor
      · rw [upsertAccountInfos_log]
        exact createLogEntries_of_stored _ _ _ hstored
      · rw [upsertAccountInfos_of_settled, createLogEntries_accounts]
        intro v hv
        rw [createLogEntries_accounts]
        exact hsettled v ((hperm2 _).mem_iff.mp hv)
  exact ⟨key.1, key.2, fun h => by rw [key.1]; exact hkeys h⟩

/-- The stored projection of `did` after an iteration that persisted its page:
that of the last entry of `did` in the page that is not skipped. -/
theorem page_projection (lib : Lib) (r : Runtime) (cursor c : String) (env : PageEnv)
    (pre post : List plc.OperationLogEntry) (e : plc.OperationLogEntry)
    (hfetch : env.fetch = .response 200 ((pre ++ e :: post).map Line.entry))
    (hperm : ∀ l, (env.rangeOrder l).Perm l)
    (hb : isBogus e = false)
    (hpost : ∀ x ∈ post, isBogus x = true ∨ x.DID ≠ e.DID)
    (hres : (r.backfillPage lib cursor env).2 = .next c) :
    ∃ row, (r.backfillPage lib cursor env).1.db.accountByDID e.DID = some row
      ∧ row.DID = e.DID
      ∧ row.PLCTimestamp = e.CreatedAt
      ∧ row.PDS = (AccountInfoFromOp e).PDS
      ∧ row.Handle = (AccountInfoFromOp e).Handle := by
  rcases backfillPage_cases lib r cursor env with ⟨_, hno⟩ | ⟨body, ds, hf, hd, _, _, _, hw⟩
  · exact absurd hres (hno c)
  rcases hw with ⟨_, herr, _, _⟩ | ⟨_, _, hdb, _⟩
  · rw [herr] at hres; cases hres
  have hbody : body = (pre ++ e :: post).map Line.entry := by
    rw [hfetch] at hf
    injection hf with _ h
    exact h.symm
  subst hbody
  have hds : ds = (pre ++ e :: post).foldl (decodeEntry lib) (DecodeState.init cursor) := by
    rw [decodeLoop_entries] at hd
    exact (Option.some.inj hd).symm
  have hmem : (e.DID, AccountInfoFromOp e) ∈ ds.mapInfos := by
    rw [hds]
    exact fold_projection lib pre post e _ hb hpost
  have hv : AccountInfoFromOp e ∈ ds.mapInfos.map Prod.snd :=
    List.mem_map.mpr ⟨_, hmem, rfl⟩
  have hs := settled_after_upsert env.acctWriteTime
    (r.db.createLogEntries env.logWriteTime ds.newEntries) ds.mapInfos env.rangeOrder hperm
    (decodeLoop_keyed lib _ cursor ds hd) _ hv
  rw [← hdb] at hs
  obtain ⟨x, hx, h0, h1, h2, h3⟩ := settled_find _ _ hs
  rw [accountInfoFromOp_DID] at hx h0
  rw [accountInfoFromOp_PLCTimestamp] at h1
  exact ⟨x, hx, h0, h1, h2, h3⟩

/-- The scenario page of two entries, persisted and then replayed with the
same cursor. -/
theorem C2_idempotent_ingestion_witness :
    ((Example.runtime.backfillPage Example.lib ""
        (Example.page [.entry Example.alice, .entry Example.alice2])).1.backfillPage Example.lib ""
        (Example.page [.entry Example.alice, .entry Example.alice2])).1.db.log.map (fun x => x.CID)
      = ["cid1", "cid2"]
    ∧ (((Example.runtime.backfillPage Example.lib ""
        (Example.page [.entry Example.alice, .entry Example.alice2])).1.backfillPage Example.lib ""
        (Example.page [.entry Example.alice, .entry Example.alice2])).1.db.accounts.map
          (fun a => (a.DID, a.Handle)))
      = [("did:plc:d", "alice2.example")] := by
  obtain ⟨h1, h2, _⟩ := C2_idempotent_ingestion Example.lib Example.runtime "" ""
    "2024-01-01T00:05:00Z" (Example.page [.entry Example.alice, .entry Example.alice2])
    (Example.page [.entry Example.alice, .entry Example.alice2]) rfl
    (fun _ => List.Perm.refl _) (fun _ => List.Perm.refl _) (by decide)
  rw [h1, h2]
  decide

/-- C3 (amended). Latest in page order wins: when a page holds two entries of
one identity and no other entry of it, and the entry that comes second is not
a placeholder record, the account row of the identity after the page is
persisted carries the timestamp, PDS and handle of the entry that comes
second. -/
theorem C3_later_entry_wins (lib : Lib) (r : Runtime) (cursor c : String) (env : PageEnv)
    (pre mid post : List plc.OperationLogEntry) (e1 e2 : plc.OperationLogEntry)
    (hfetch : env.fetch = .response 200 ((pre ++ e1 :: (mid ++ e2 :: post)).map Line.entry))
    (hperm : ∀ l, (env.rangeOrder l).Perm l)
    (_hsame : e1.DID = e2.DID)
    (hothers : ∀ x ∈ pre ++ mid ++ post, x.DID ≠ e2.DID)
    (hpds : (AccountInfoFromOp e2).PDS ≠ "https://uwu")
    (hres : (r.backfillPage lib cursor env).2 = .next c) :
    ∃ row, (r.backfillPage lib cursor env).1.db.accountByDID e2.DID = some row
      ∧ row.PLCTimestamp = e2.CreatedAt
      ∧ row.PDS = (AccountInfoFromOp e2).PDS
      ∧ row.Handle = (AccountInfoFromOp e2).Handle := by
  have hfetch2 : env.fetch = .response 200 (((pre ++ e1 :: mid) ++ e2 :: post).map Line.entry) := by
    rw [hfetch]; simp
  obtain ⟨row, h1, _, h2, h3, h4⟩ := page_projection lib r cursor c env (pre ++ e1 :: mid) post e2
    hfetch2 hperm (by simpa [isBogus] using hpds)
    (fun x hx => Or.inr (hothers x (List.mem_append_right _ hx))) hres
  exact ⟨row, h1, h2, h3, h4⟩

/-- The scenario page: `alice.example` at 00:00:00 and then `alice2.example` at
00:05:00. -/
theorem C3_later_entry_wins_witness :
    Example.projection (Example.runtime.backfillPage Example.lib ""
        (Example.page [.entry Example.alice, .entry Example.alice2])).1
      = some ("alice2.example", "https://pds2", "2024-01-01T00:05:00Z") := by
  obtain ⟨row, h1, h2, h3, h4⟩ := C3_later_entry_wins Example.lib Example.runtime ""
    "2024-01-01T00:05:00Z" (Example.page [.entry Example.alice, .entry Example.alice2])
    [] [] [] Example.alice Example.alice2 rfl (fun _ => List.Perm.refl _) rfl
    (by decide) (by decide) (by decide)
  have hd : Example.alice2.DID = Example.did := rfl
  rw [hd] at h1
  simp only [Example.projection, h1, Option.map_some', h2, h3, h4]
  decide

/-- C3, as stated, fails: with the two entries of the scenario in the other
order, the projection is that of the entry with the older timestamp; and when
the entry with the newer timestamp is a placeholder record, the projection is
that of the older entry in either order. -/
theorem C3_counterexample :
    Example.projection (Example.runtime.backfillPage Example.lib ""
        (Example.page [.entry Example.alice2, .entry Example.alice])).1
      = some ("alice.example", "https://pds1", "2024-01-01T00:00:00Z")
    ∧ Example.projection (Example.runtime.backfillPage Example.lib ""
        (Example.page [.entry Example.alice, .entry Example.placeholder])).1
      = some ("alice.example", "https://pds1", "2024-01-01T00:00:00Z")
    ∧ Example.alice.DID = Example.alice2.DID ∧ Example.alice.DID = Example.placeholder.DID
    ∧ (Example.lib.parseTime Example.alice.CreatedAt).map Time.ns = some 63839664000000000000
    ∧ (Example.lib.parseTime Example.alice2.CreatedAt).map Time.ns = some 63839664300000000000
    ∧ (Example.lib.parseTime Example.placeholder.CreatedAt).map Time.ns
      = some 63839664300000000000 := by
  decide

/-! ## Tombstones and placeholder records in the projection -/

theorem accountInfoFromOp_tombstone (e : plc.OperationLogEntry) (tb : plc.Tombstone)
    (h : e.Operation = .Tombstone tb) :
    (AccountInfoFromOp e).PDS = "" ∧ (AccountInfoFromOp e).Handle = "" := by
  unfold AccountInfoFromOp
  rw [h]
  exact ⟨rfl, rfl⟩

theorem isBogus_tombstone (e : plc.OperationLogEntry) (tb : plc.Tombstone)
    (h : e.Operation = .Tombstone tb) : isBogus e = false := by
  unfold isBogus
  rw [(accountInfoFromOp_tombstone e tb h).1]
  decide

theorem info_by_did (lib : Lib) (r : Runtime) (env : ReqEnv) (path : String) (row : AccountInfo)
    (hdid : HasPrefix (lib.ToLower (TrimPrefix path "/info/")) "did:" = true)
    (hlookup : env.lookupFails = false)
    (hrow : r.db.accountByDID (lib.ToLower (TrimPrefix path "/info/")) = some row) :
    r.Info lib env path = .JSON (AccountViewFromInfo row) := by
  unfold Runtime.Info
  simp only [hdid, hlookup, if_true, hrow]
  simp

/-- After a persisted page whose last entry of an identity is a tombstone, the
account row of the identity is the emptied one and `Info` returns it. -/
theorem tombstone_page (lib : Lib) (r : Runtime) (cursor c : String) (env : PageEnv)
    (pre : List plc.OperationLogEntry) (e2 : plc.OperationLogEntry) (tb : plc.Tombstone)
    (h2 : e2.Operation = .Tombstone tb)
    (hfetch : env.fetch = .response 200 ((pre ++ [e2]).map Line.entry))
    (hperm : ∀ l, (env.rangeOrder l).Perm l)
    (hres : (r.backfillPage lib cursor env).2 = .next c) :
    ∃ row, (r.backfillPage lib cursor env).1.db.accountByDID e2.DID = some row
      ∧ row.PLCTimestamp = e2.CreatedAt ∧ row.PDS = "" ∧ row.Handle = ""
      ∧ ∀ (req : ReqEnv) (path : String),
          lib.ToLower (TrimPrefix path "/info/") = e2.DID → HasPrefix e2.DID "did:" = true →
          req.lookupFails = false →
          (r.backfillPage lib cursor env).1.Info lib req path
            = .JSON { DID := e2.DID, PDS := "", Handle := "", PLCTime := e2.CreatedAt
                      LastTime := row.UpdatedAt } := by
  obtain ⟨hp, hh⟩ := accountInfoFromOp_tombstone e2 tb h2
  obtain ⟨row, h1, hd, h3, h4, h5⟩ := page_projection lib r cursor c env pre [] e2
    hfetch hperm (isBogus_tombstone e2 tb h2) (fun x hx => by cases hx) hres
  refine ⟨row, h1, h3, h4.trans hp, h5.trans hh, ?_⟩
  intro req path hpath hpre hlookup
  rw [info_by_did lib _ req path row (by rw [hpath]; exact hpre) hlookup (by rw [hpath]; exact h1)]
  simp [AccountViewFromInfo, hd, h3, h4.trans hp, h5.trans hh]

/-- C5 (amended). The projection does not survive a tombstone: for an identity
whose entries are one `Op` followed by one `Tombstone`, ingested in one page or
in two successive pages, the account row of the identity is kept but carries
the timestamp of the tombstone and an empty PDS and handle, and `Info` returns
these values. -/
theorem C5_tombstone_clears_projection (lib : Lib) (e1 e2 : plc.OperationLogEntry)
    (o : plc.Op) (tb : plc.Tombstone)
    (_h1 : e1.Operation = .Op o) (h2 : e2.Operation = .Tombstone tb) (_hsame : e1.DID = e2.DID) :
    (∀ (r : Runtime) (cursor c : String) (env : PageEnv),
        env.fetch = .response 200 [.entry e1, .entry e2] →
        (∀ l, (env.rangeOrder l).Perm l) →
        (r.backfillPage lib cursor env).2 = .next c →
        ∃ row, (r.backfillPage lib cursor env).1.db.accountByDID e2.DID = some row
          ∧ row.PLCTimestamp = e2.CreatedAt ∧ row.PDS = "" ∧ row.Handle = ""
          ∧ ∀ (req : ReqEnv) (path : String),
              lib.ToLower (TrimPrefix path "/info/") = e2.DID → HasPrefix e2.DID "did:" = true →
              req.lookupFails = false →
              (r.backfillPage lib cursor env).1.Info lib req path
                = .JSON { DID := e2.DID, PDS := "", Handle := "", PLCTime := e2.CreatedAt
                          LastTime := row.UpdatedAt })
    ∧ (∀ (r : Runtime) (cursor c c2 : String) (envA envB : PageEnv),
        envA.fetch = .response 200 [.entry e1] →
        envB.fetch = .response 200 [.entry e2] →
        (∀ l, (envB.rangeOrder l).Perm l) →
        (r.backfillPage lib cursor envA).2 = .next c →
        ((r.backfillPage lib cursor envA).1.backfillPage lib c envB).2 = .next c2 →
        ∃ row, ((r.backfillPage lib cursor envA).1.backfillPage lib c envB).1.db.accountByDID
            e2.DID = some row
          ∧ row.PLCTimestamp = e2.CreatedAt ∧ row.PDS = "" ∧ row.Handle = ""
          ∧ ∀ (req : ReqEnv) (path : String),
              lib.ToLower (TrimPrefix path "/info/") = e2.DID → HasPrefix e2.DID "did:" = true →
              req.lookupFails = false →
              ((r.backfillPage lib cursor envA).1.backfillPage lib c envB).1.Info lib req path
                = .JSON { DID := e2.DID, PDS := "", Handle := "", PLCTime := e2.CreatedAt
                          LastTime := row.UpdatedAt }) := by
  constructor
  · intro r cursor c env hfetch hperm hres
    exact tombstone_page lib r cursor c env [e1] e2 tb h2 (by rw [hfetch]; rfl) hperm hres
  · intro r cursor c c2 envA envB _ hfetch hperm _ hres
    exact tombstone_page lib _ c c2 envB [] e2 tb h2 (by rw [hfetch]; rfl) hperm hres

/-- An `Op` and then a `Tombstone` of one identity in one page. -/
theorem C5_tombstone_clears_projection_witness :
    Example.projection (Example.runtime.backfillPage Example.lib ""
        (Example.page [.entry Example.atAlice, .entry Example.retired])).1
      = some ("", "", "2024-01-01T00:05:00Z") := by
  obtain ⟨row, h1, h2, h3, h4, _⟩ := (C5_tombstone_clears_projection Example.lib Example.atAlice
    Example.retired _ _ rfl rfl rfl).1 Example.runtime "" "2024-01-01T00:05:00Z"
    (Example.page [.entry Example.atAlice, .entry Example.retired]) rfl
    (fun _ => List.Perm.refl _) (by decide)
  have hd : Example.retired.DID = Example.did := rfl
  rw [hd] at h1
  simp only [Example.projection, h1, Option.map_some', h2, h3, h4]
  rfl

/-- C5, as stated, fails: after an `Op` with alias `at://alice.example` and PDS
`https://pds1` and then a `Tombstone`, in one page or in two successive pages,
the account row has an empty handle and an empty PDS, and `Info` returns
them. -/
theorem C5_counterexample :
    Example.projection (Example.runtime.backfillPage Example.lib ""
        (Example.page [.entry Example.atAlice])).1
      = some ("alice.example", "https://pds1", "2024-01-01T00:00:00Z")
    ∧ Example.projection (Example.runtime.backfillPage Example.lib ""
        (Example.page [.entry Example.atAlice, .entry Example.retired])).1
      = some ("", "", "2024-01-01T00:05:00Z")
    ∧ Example.projection ((Example.runtime.backfillPage Example.lib ""
        (Example.page [.entry Example.atAlice])).1.backfillPage Example.lib "2024-01-01T00:00:00Z"
        (Example.page [.entry Example.retired])).1
      = some ("", "", "2024-01-01T00:05:00Z")
    ∧ ((Example.runtime.backfillPage Example.lib ""
        (Example.page [.entry Example.atAlice])).1.backfillPage Example.lib "2024-01-01T00:00:00Z"
        (Example.page [.entry Example.retired])).1.Info Example.lib
          (Example.reqAt (Example.date 2024 1 1 0 7 0)) "/info/did:plc:d"
      = .JSON { DID := "did:plc:d", PDS := "", Handle := "", PLCTime := "2024-01-01T00:05:00Z"
                LastTime := Example.date 2024 1 1 0 6 1 } := by
  decide

/-! ## Placeholder records -/

theorem mem_entriesOf (body : List Line) (e : plc.OperationLogEntry) :
    e ∈ entriesOf body ↔ Line.entry e ∈ body := by
  induction body with
  | nil => simp [entriesOf]
  | cons l body ih =>
    cases l with
    | malformed => simp [entriesOf, ih]
    | entry x => simp [entriesOf, ih]

theorem PLCLogEntryFromOp_injective (e x : plc.OperationLogEntry)
    (h : PLCLogEntryFromOp e = PLCLogEntryFromOp x) : e = x := by
  cases e; cases x
  simp only [PLCLogEntryFromOp, PLCLogEntry.mk.injEq] at h
  obtain ⟨_, _, h1, h2, h3, h4, h5⟩ := h
  simp [h1, h2, h3, h4, h5]

theorem fold_no_placeholder (lib : Lib) (es : List plc.OperationLogEntry) (ds : DecodeState)
    (h : ∀ p ∈ ds.mapInfos, p.2.PDS ≠ "https://uwu") :
    ∀ p ∈ (es.foldl (decodeEntry lib) ds).mapInfos, p.2.PDS ≠ "https://uwu" := by
  induction es generalizing ds with
  | nil => exact h
  | cons e es ih =>
    rw [List.foldl_cons]
    apply ih
    intro p hp
    rw [decodeEntry_mapInfos] at hp
    split_ifs at hp with hb
    · exact h p hp
    · rcases mem_mapSet _ _ _ p hp with rfl | ⟨hp, _⟩
      · simpa [isBogus] using hb
      · exact h p hp

/-- C6 (amended). An entry whose derived PDS is the placeholder `https://uwu`
is left out of the account-projection batch and of the batch of log rows as
well: the log batch holds the rows of the other entries of the page, in
order. -/
theorem C6_placeholder_skipped (lib : Lib) (cursor : String) (body : List Line)
    (ds : DecodeState) (e : plc.OperationLogEntry)
    (hd : decodeLoop lib (DecodeState.init cursor) body = some ds)
    (_he : Line.entry e ∈ body)
    (hp : (AccountInfoFromOp e).PDS = "https://uwu") :
    (∀ p ∈ ds.mapInfos, p.2 ≠ AccountInfoFromOp e)
    ∧ PLCLogEntryFromOp e ∉ ds.newEntries
    ∧ ds.newEntries
        = ((entriesOf body).filter (fun x => (AccountInfoFromOp x).PDS ≠ "https://uwu")).map
            PLCLogEntryFromOp := by
  have hds := decodeLoop_eq_some lib body _ _ hd
  have hne : ds.newEntries
      = ((entriesOf body).filter (fun x => (AccountInfoFromOp x).PDS ≠ "https://uwu")).map
          PLCLogEntryFromOp := by
    rw [hds, fold_newEntries]
    simp only [DecodeState.init, List.nil_append, isBogus]
    congr 1
    apply List.filter_congr
    intro x _
    by_cases hx : (AccountInfoFromOp x).PDS = "https://uwu"
    · simp [hx]
    · simp [hx]
  refine ⟨?_, ?_, hne⟩
  · intro p hpm heq
    have := fold_no_placeholder lib (entriesOf body) (DecodeState.init cursor)
      (fun _ hq => by cases hq) p (hds ▸ hpm)
    exact this (heq ▸ hp)
  · rw [hne]
    intro hmem
    obtain ⟨x, hx, hxe⟩ := List.mem_map.mp hmem
    have := PLCLogEntryFromOp_injective x e hxe
    subst this
    simp [hp] at hx

/-- A page with an ordinary entry and a placeholder entry. -/
theorem C6_placeholder_skipped_witness :
    (decodeLoop Example.lib (DecodeState.init "")
        [.entry Example.alice, .entry Example.placeholder]).map (fun ds => ds.newEntries)
      = some [PLCLogEntryFromOp Example.alice] := by
  have h := (C6_placeholder_skipped Example.lib ""
    [.entry Example.alice, .entry Example.placeholder]
    ((([Example.alice, Example.placeholder] : List plc.OperationLogEntry).foldl
      (decodeEntry Example.lib) (DecodeState.init "")))
    Example.placeholder (decodeLoop_entries Example.lib [Example.alice, Example.placeholder] _)
    (by decide) (by decide)).2.2
  rw [show ([.entry Example.alice, .entry Example.placeholder] : List Line)
    = ([Example.alice, Example.placeholder] : List plc.OperationLogEntry).map Line.entry from rfl,
    decodeLoop_entries, Option.map_some', h]
  decide

/-- C6, as stated, fails: the page with an ordinary entry and a placeholder
entry yields a log batch without the row of the placeholder entry, and the
store has no row of it after the page is persisted. -/
theorem C6_counterexample :
    (AccountInfoFromOp Example.placeholder).PDS = "https://uwu"
    ∧ (decodeLoop Example.lib (DecodeState.init "")
        [.entry Example.alice, .entry Example.placeholder]).map (fun ds => ds.newEntries)
      = some [PLCLogEntryFromOp Example.alice]
    ∧ (Example.runtime.backfillPage Example.lib ""
        (Example.page [.entry Example.alice, .entry Example.placeholder])).2
      = .next "2024-01-01T00:05:00Z"
    ∧ (Example.runtime.backfillPage Example.lib ""
        (Example.page [.entry Example.alice, .entry Example.placeholder])).1.db.log.map
          (fun x => x.CID)
      = ["cid1"] := by
  decide

/-! ## Failed pages -/

/-- C10. No cursor advancement on a failed page: when the decoding of a page
fails, or the insert of its log rows or the upsert of its account projections
is rejected, the iteration ends with an error, `backfillMirror` returns that
error, and `lastRecordTimestamp` is what it was before the page was fetched. -/
theorem C10_failed_page_keeps_cursor (lib : Lib) (r : Runtime) (cursor : String) (env : PageEnv)
    (body : List Line) (rest : List PageEnv)
    (hfetch : env.fetch = .response 200 body)
    (hfail : Line.malformed ∈ body
      ∨ ∃ ds, decodeLoop lib (DecodeState.init cursor) body = some ds
          ∧ ds.newEntries ≠ [] ∧ ds.cursor ≠ cursor
          ∧ (env.logInsertFails = true ∨ env.acctUpsertFails = true)) :
    (∃ msg, (r.backfillPage lib cursor env).2 = .err msg)
    ∧ (r.backfillPage lib cursor env).1.lastRecordTimestamp = r.lastRecordTimestamp
    ∧ (∃ msg, (r.backfillLoop lib cursor (env :: rest)).2 = .err msg)
    ∧ (r.backfillLoop lib cursor (env :: rest)).1.lastRecordTimestamp = r.lastRecordTimestamp := by
  have key : ∃ msg, (r.backfillPage lib cursor env).2 = .err msg
      ∧ (r.backfillPage lib cursor env).1.lastRecordTimestamp = r.lastRecordTimestamp := by
    unfold Runtime.backfillPage
    rw [hfetch]
    simp only [ne_eq, not_true_eq_false, if_false]
    rcases hfail with hm | ⟨ds, hd, hne, hc, hw⟩
    · rw [(decodeLoop_eq_none_iff lib body _).mpr hm]
      exact ⟨_, rfl, rfl⟩
    · rw [hd]
      simp only
      have hcu : ¬ (ds.newEntries.length = 0 ∨ ds.cursor = cursor) := by
        rw [not_or]
        exact ⟨fun h0 => hne (List.length_eq_zero.mp h0), hc⟩
      rw [if_neg hcu]
      by_cases hl : env.logInsertFails = true
      · rw [if_pos hl]
        exact ⟨_, rfl, rfl⟩
      · rw [if_neg hl]
        have ha : env.acctUpsertFails = true := hw.resolve_left hl
        rw [if_pos ha]
        exact ⟨_, rfl, rfl⟩
  obtain ⟨msg, h1, h2⟩ := key
  refine ⟨⟨msg, h1⟩, h2, ?_⟩
  unfold Runtime.backfillLoop
  generalize r.backfillPage lib cursor env = p at h1 h2
  obtain ⟨r1, res⟩ := p
  simp only at h1 h2
  subst h1
  exact ⟨⟨msg, rfl⟩, h2⟩

/-- A page whose second line is malformed, and a page whose account upsert is
rejected. -/
theorem C10_failed_page_keeps_cursor_witness :
    ((Example.runtimeAt ⟨7⟩ ⟨7⟩).backfillPage Example.lib ""
        (Example.page [.entry Example.alice, .malformed])).2 = .err "parsing log entry"
    ∧ ((Example.runtimeAt ⟨7⟩ ⟨7⟩).backfillPage Example.lib ""
        (Example.page [.entry Example.alice, .malformed])).1.lastRecordTimestamp = ⟨7⟩
    ∧ ((Example.runtimeAt ⟨7⟩ ⟨7⟩).backfillPage Example.lib ""
        { Example.page [.entry Example.alice] with acctUpsertFails := true }).1.lastRecordTimestamp
      = ⟨7⟩ := by
  have h1 := C10_failed_page_keeps_cursor Example.lib (Example.runtimeAt ⟨7⟩ ⟨7⟩) ""
    (Example.page [.entry Example.alice, .malformed]) [.entry Example.alice, .malformed] []
    rfl (Or.inl (by decide))
  have h2 := C10_failed_page_keeps_cursor Example.lib (Example.runtimeAt ⟨7⟩ ⟨7⟩) ""
    { Example.page [.entry Example.alice] with acctUpsertFails := true } [.entry Example.alice] []
    rfl (Or.inr ⟨_, decodeLoop_entries Example.lib [Example.alice] _, by decide, by decide,
      Or.inr rfl⟩)
  exact ⟨by decide, h1.2.1, h2.2.1⟩

/-! ## The document resolver -/

theorem textLt_iff (a b : String) : textLt a b = true ↔ a < b := by
  simp [textLt, String.lt_iff_toList_lt]

theorem pickLatest_eq_none (l : List PLCLogEntry) : pickLatest l = none ↔ l = [] := by
  cases l with
  | nil => simp [pickLatest]
  | cons row rest =>
    simp only [pickLatest]
    split
    · simp
    · split_ifs <;> simp

/-- The row picked is one of the rows and none has a greater timestamp. -/
theorem pickLatest_spec (l : List PLCLogEntry) (b : PLCLogEntry) (h : pickLatest l = some b) :
    b ∈ l ∧ ∀ x ∈ l, textLt b.PLCTimestamp x.PLCTimestamp = false := by
  induction l generalizing b with
  | nil => simp [pickLatest] at h
  | cons row rest ih =>
    simp only [pickLatest] at h
    cases hr : pickLatest rest with
    | none =>
      rw [hr] at h
      simp only [Option.some.injEq] at h
      subst h
      rw [pickLatest_eq_none] at hr
      subst hr
      refine ⟨List.mem_cons_self _ _, ?_⟩
      intro x hx
      rw [List.mem_singleton] at hx
      subst hx
      rw [Bool.eq_false_iff, ne_eq, textLt_iff]
      exact lt_irrefl _
    | some best =>
      rw [hr] at h
      obtain ⟨hbest, hmax⟩ := ih best hr
      simp only at h
      split_ifs at h with hlt
      · simp only [Option.some.injEq] at h
        subst h
        refine ⟨List.mem_cons_of_mem _ hbest, ?_⟩
        intro x hx
        rcases List.mem_cons.mp hx with rfl | hx
        · rw [Bool.eq_false_iff, ne_eq, textLt_iff]
          rw [textLt_iff] at hlt
          exact lt_asymm hlt
        · exact hmax x hx
      · simp only [Option.some.injEq] at h
        subst h
        refine ⟨List.mem_cons_self _ _, ?_⟩
        intro x hx
        rw [Bool.eq_false_iff, ne_eq, textLt_iff]
        rcases List.mem_cons.mp hx with rfl | hx
        · exact lt_irrefl _
        · have h1 := hmax x hx
          rw [Bool.eq_false_iff, ne_eq, textLt_iff, not_lt] at h1
          rw [textLt_iff, not_lt] at hlt
          exact not_lt.mpr (le_trans h1 hlt)

theorem mem_filter_latest (d : DB) (did : String) (x : PLCLogEntry) :
    x ∈ d.log.filter (fun row => row.DID == did && !row.Nullified)
      ↔ x ∈ d.log ∧ x.DID = did ∧ x.Nullified = false := by
  simp [List.mem_filter]

/-- The response of the lookup when the latest entry is a tombstone. -/
theorem resolveDid_tombstone (lib : Lib) (r : Runtime) (env : ReqEnv) (path : String)
    (hlookup : env.lookupFails = false)
    (hsome : ∃ row ∈ r.db.log, row.DID = requestedDid lib path ∧ row.Nullified = false)
    (hlatest : ∀ row ∈ r.db.log, row.DID = requestedDid lib path → row.Nullified = false →
      (∀ x ∈ r.db.log, x.DID = requestedDid lib path → x.Nullified = false →
        textLt row.PLCTimestamp x.PLCTimestamp = false) →
      isTombstone row.Operation = true) :
    r.resolveDid lib env path = .NotFound "DID deleted" := by
  unfold Runtime.resolveDid
  simp only [hlookup, Bool.false_eq_true, if_false]
  change (match r.db.latestEntry (requestedDid lib path) with
    | none => Response.NotFound "unknown DID"
    | some entry => _) = _
  cases hl : r.db.latestEntry (requestedDid lib path) with
  | none =>
    exfalso
    unfold DB.latestEntry at hl
    rw [pickLatest_eq_none] at hl
    obtain ⟨row, hrow, h1, h2⟩ := hsome
    have := (mem_filter_latest r.db _ row).mpr ⟨hrow, h1, h2⟩
    rw [hl] at this
    cases this
  | some entry =>
    unfold DB.latestEntry at hl
    obtain ⟨hmem, hmax⟩ := pickLatest_spec _ _ hl
    obtain ⟨h1, h2, h3⟩ := (mem_filter_latest r.db _ entry).mp hmem
    have htb := hlatest entry h1 h2 h3
      (fun x hx hxd hxn => hmax x ((mem_filter_latest r.db _ x).mpr ⟨hx, hxd, hxn⟩))
    cases hop : entry.Operation with
    | Tombstone tb => simp only [hop]
    | Op v => rw [hop] at htb; cases htb
    | LegacyCreateOp v => rw [hop] at htb; cases htb

theorem resolveDid_unknown (lib : Lib) (r : Runtime) (env : ReqEnv) (path : String)
    (hlookup : env.lookupFails = false)
    (hnone : ∀ row ∈ r.db.log, row.DID = requestedDid lib path → row.Nullified = true) :
    r.resolveDid lib env path = .NotFound "unknown DID" := by
  unfold Runtime.resolveDid
  simp only [hlookup, Bool.false_eq_true, if_false]
  change (match r.db.latestEntry (requestedDid lib path) with
    | none => Response.NotFound "unknown DID"
    | some entry => _) = _
  have hl : r.db.latestEntry (requestedDid lib path) = none := by
    unfold DB.latestEntry
    rw [pickLatest_eq_none, List.filter_eq_nil_iff]
    intro x hx
    by_cases hd : x.DID = requestedDid lib path
    · simp [hd, hnone x hx hd]
    · simp [hd]
  rw [hl]

/-- C7. Terminal tombstone: when the mirror is not stale and every latest (by
`plc_timestamp`) non-nullified log entry of the requested identity is a
`Tombstone`, `DidDoc` answers "DID deleted" and renders no document, whatever
other entries the identity has; the same query repeated on the store answers
the same; and the response differs from "unknown DID", the response for an
identity without a non-nullified entry. -/
theorem C7_terminal_tombstone (lib : Lib) (r : Runtime) (env env2 : ReqEnv) (path : String)
    (hfresh : Fresh lib r env) (hlookup : env.lookupFails = false)
    (hsome : ∃ row ∈ r.db.log, row.DID = requestedDid lib path ∧ row.Nullified = false)
    (hlatest : ∀ row ∈ r.db.log, row.DID = requestedDid lib path → row.Nullified = false →
      (∀ x ∈ r.db.log, x.DID = requestedDid lib path → x.Nullified = false →
        textLt row.PLCTimestamp x.PLCTimestamp = false) →
      isTombstone row.Operation = true)
    (hfresh2 : Fresh lib (r.DidDoc lib env path).1 env2) (hlookup2 : env2.lookupFails = false) :
    (r.DidDoc lib env path).2 = .NotFound "DID deleted"
    ∧ (∀ doc, (r.DidDoc lib env path).2 ≠ .JSON doc)
    ∧ ((r.DidDoc lib env path).1.DidDoc lib env2 path).2 = .NotFound "DID deleted"
    ∧ (∀ (r0 : Runtime) (env0 : ReqEnv), Fresh lib r0 env0 → env0.lookupFails = false →
        (∀ row ∈ r0.db.log, row.DID = requestedDid lib path → row.Nullified = true) →
        (r0.DidDoc lib env0 path).2 = .NotFound "unknown DID"
        ∧ (r0.DidDoc lib env0 path).2 ≠ (r.DidDoc lib env path).2) := by
  have h1 : (r.DidDoc lib env path).2 = .NotFound "DID deleted" := by
    rw [didDoc_of_fresh lib r env path hfresh]
    exact resolveDid_tombstone lib r env path hlookup hsome hlatest
  have h2 : ((r.DidDoc lib env path).1.DidDoc lib env2 path).2 = .NotFound "DID deleted" := by
    rw [didDoc_of_fresh lib _ env2 path hfresh2]
    apply resolveDid_tombstone lib _ env2 path hlookup2
    · rw [didDoc_db]; exact hsome
    · rw [didDoc_db]; exact hlatest
  refine ⟨h1, ?_, h2, ?_⟩
  · intro doc hdoc
    rw [h1] at hdoc
    cases hdoc
  · intro r0 env0 hf0 hl0 hnone
    have h0 : (r0.DidDoc lib env0 path).2 = .NotFound "unknown DID" := by
      rw [didDoc_of_fresh lib r0 env0 path hf0]
      exact resolveDid_unknown lib r0 env0 path hl0 hnone
    refine ⟨h0, ?_⟩
    rw [h0, h1]
    intro h
    injection h with h
    exact absurd h (by decide)

/-- An identity with an `Op` and then a `Tombstone`, asked for twice. -/
theorem C7_terminal_tombstone_witness :
    (Example.retiredRuntime.DidDoc Example.lib (Example.reqAt (Example.date 2024 1 1 0 7 0))
        "/did:plc:d").2 = .NotFound "DID deleted"
    ∧ ((Example.retiredRuntime.DidDoc Example.lib (Example.reqAt (Example.date 2024 1 1 0 7 0))
        "/did:plc:d").1.DidDoc Example.lib (Example.reqAt (Example.date 2024 1 1 0 8 0))
        "/did:plc:d").2 = .NotFound "DID deleted" := by
  have h := C7_terminal_tombstone Example.lib Example.retiredRuntime
    (Example.reqAt (Example.date 2024 1 1 0 7 0)) (Example.reqAt (Example.date 2024 1 1 0 8 0))
    "/did:plc:d"
    ⟨Example.date 2024 1 1 0 5 0, by rfl, by decide⟩ rfl
    (by decide) (by decide)
    ⟨Example.date 2024 1 1 0 5 0, by rfl, by decide⟩ rfl
  exact ⟨h.1, h.2.2.1⟩

/-! ## Rendering of aliases -/

theorem mapSlice_eq_map {A B : Type} (s : List A) (fn : A → B) : mapSlice s fn = s.map fn := by
  unfold mapSlice
  have h : ∀ (acc : List B), s.foldl (fun r v => r ++ [fn v]) acc = acc ++ s.map fn := by
    induction s with
    | nil => intro acc; simp
    | cons a s ih => intro acc; simp [ih]
  simpa using h []

theorem allSome_eq_some {α : Type} (l : List (Option α)) (xs : List α)
    (h : allSome l = some xs) : xs.map some = l := by
  induction l generalizing xs with
  | nil => simp [allSome] at h; simp [← h]
  | cons a l ih =>
    cases a with
    | none => simp [allSome] at h
    | some a =>
      simp only [allSome, Option.map_eq_some'] at h
      obtain ⟨ys, hys, rfl⟩ := h
      simp [ih ys hys]

theorem addKey_AlsoKnownAs (lib : Lib) (didValue : DID) (doc : Document) (kv : String × String) :
    (addKey lib didValue doc kv).AlsoKnownAs = doc.AlsoKnownAs := by
  unfold addKey
  simp only
  split
  · rfl
  · split_ifs <;> rfl

theorem fold_addKey_AlsoKnownAs (lib : Lib) (didValue : DID) (kvs : List (String × String))
    (doc : Document) :
    (kvs.foldl (addKey lib didValue) doc).AlsoKnownAs = doc.AlsoKnownAs := by
  induction kvs generalizing doc with
  | nil => rfl
  | cons kv kvs ih => rw [List.foldl_cons, ih, addKey_AlsoKnownAs]

theorem renderDocument_AlsoKnownAs (lib : Lib) (entry : PLCLogEntry) (op : plc.Op)
    (doc : Document) (h : renderDocument lib entry op = some doc) :
    doc.AlsoKnownAs.map some = op.AlsoKnownAs.map lib.ParseURI := by
  unfold renderDocument at h
  simp only at h
  cases ha : allSome (mapSlice op.AlsoKnownAs lib.ParseURI) with
  | none => rw [ha] at h; cases h
  | some aka =>
    rw [ha] at h
    simp only at h
    split at h
    · cases h
    · simp only [Option.some.injEq] at h
      rw [← h, fold_addKey_AlsoKnownAs]
      simp only
      rw [allSome_eq_some _ _ ha, mapSlice_eq_map]

theorem didDoc_cases (lib : Lib) (r : Runtime) (env : ReqEnv) (path : String) :
    (∃ msg, (r.DidDoc lib env path).2 = .InternalServerError msg)
    ∨ (∃ d, (r.DidDoc lib env path).2 = .ServiceUnavailable d)
    ∨ (r.DidDoc lib env path).2 = r.resolveDid lib env path := by
  cases hres : (r.LastRecordTimestamp lib env.cursorReadFails).2 with
  | error e =>
    left
    unfold Runtime.DidDoc
    generalize r.LastRecordTimestamp lib env.cursorReadFails = p at hres
    obtain ⟨r1, res⟩ := p
    simp only at hres
    subst hres
    exact ⟨_, rfl⟩
  | ok ts =>
    right
    rw [didDoc_of_timestamp lib r env path ts hres]
    split_ifs
    · left; exact ⟨_, rfl⟩
    · right; rfl

/-- C9 (amended). Alias rendering in the identity document: the `AlsoKnownAs`
list of a document rendered by `DidDoc` has the length and the order of the
alias list of the operation of the latest entry, and each element is the URI
that `ssi.MustParseURI` parses from the whole alias; no `at://` is removed. -/
theorem C9_aliases_parsed_whole (lib : Lib) (r : Runtime) (env : ReqEnv) (path : String)
    (doc : Document) (hresp : (r.DidDoc lib env path).2 = .JSON doc) :
    ∃ entry, r.db.latestEntry (requestedDid lib path) = some entry
      ∧ doc.AlsoKnownAs.length = (opOf entry.Operation).AlsoKnownAs.length
      ∧ doc.AlsoKnownAs.map some = (opOf entry.Operation).AlsoKnownAs.map lib.ParseURI
      ∧ ∀ o, entry.Operation = .Op o →
          doc.AlsoKnownAs.map some = o.AlsoKnownAs.map lib.ParseURI := by
  have hres : r.resolveDid lib env path = .JSON doc := by
    rcases didDoc_cases lib r env path with ⟨m, h⟩ | ⟨d, h⟩ | h
    · rw [h] at hresp; cases hresp
    · rw [h] at hresp; cases hresp
    · rw [← h]; exact hresp
  unfold Runtime.resolveDid at hres
  simp only at hres
  split_ifs at hres
  change (match r.db.latestEntry (requestedDid lib path) with
    | none => Response.NotFound "unknown DID"
    | some entry => _) = _ at hres
  cases hl : r.db.latestEntry (requestedDid lib path) with
  | none => rw [hl] at hres; cases hres
  | some entry =>
    rw [hl] at hres
    simp only at hres
    have key : doc.AlsoKnownAs.map some = (opOf entry.Operation).AlsoKnownAs.map lib.ParseURI := by
      split at hres
      · cases hres
      · split at hres
        · cases hres
        · next d hd =>
          simp only [Response.JSON.injEq] at hres
          subst hres
          exact renderDocument_AlsoKnownAs lib entry _ _ hd
    refine ⟨entry, rfl, ?_, key, ?_⟩
    · have := congrArg List.length key
      simpa using this
    · intro o ho
      rw [key, ho]
      rfl

/-- The document of an `Op` with the alias `at://alice.example`. -/
theorem C9_aliases_parsed_whole_witness :
    (Example.aliceRuntime.DidDoc Example.lib (Example.reqAt (Example.date 2024 1 1 0 1 0))
        "/did:plc:d").2 = .JSON Example.aliceDocument
    ∧ Example.aliceDocument.AlsoKnownAs.map some
        = ["at://alice.example"].map Example.lib.ParseURI := by
  have hdoc : (Example.aliceRuntime.DidDoc Example.lib
      (Example.reqAt (Example.date 2024 1 1 0 1 0)) "/did:plc:d").2
      = .JSON Example.aliceDocument := by decide
  obtain ⟨entry, he, _, _, h⟩ := C9_aliases_parsed_whole Example.lib Example.aliceRuntime
    (Example.reqAt (Example.date 2024 1 1 0 1 0)) "/did:plc:d" Example.aliceDocument hdoc
  refine ⟨hdoc, ?_⟩
  have he2 : Example.aliceRuntime.db.latestEntry (requestedDid Example.lib "/did:plc:d")
      = some { PLCLogEntryFromOp Example.atAlice with
                ID := 1, CreatedAt := Example.date 2024 1 1 0 6 0 } := by decide
  rw [he2] at he
  injection he with he
  exact h _ (by rw [← he]; rfl)

/-- C9, as stated, fails: the alias `at://alice.example` is rendered as the URI
`at://alice.example`, not as `alice.example`. -/
theorem C9_counterexample :
    Example.aliases (Example.aliceRuntime.DidDoc Example.lib
        (Example.reqAt (Example.date 2024 1 1 0 1 0)) "/did:plc:d").2
      = some ["at://alice.example"]
    ∧ TrimPrefix "at://alice.example" "at://" = "alice.example" := by
  decide

/-! ## The cursor -/

theorem boundedBy_mono (lib : Lib) (r : Runtime) (a b : Int) (hab : a ≤ b)
    (h : BoundedBy lib r a) : BoundedBy lib r b := by
  refine ⟨le_trans h.1 hab, ?_⟩
  intro row hrow
  obtain ⟨t, ht, hle⟩ := h.2 row hrow
  exact ⟨t, ht, le_trans hle hab⟩

theorem mem_insertLogEntry (now : Time) (d : DB) (row x : PLCLogEntry)
    (hx : x ∈ (DB.insertLogEntry now d row).log) :
    x ∈ d.log ∨ x.PLCTimestamp = row.PLCTimestamp := by
  rw [insertLogEntry_log] at hx
  split_ifs at hx
  · exact Or.inl hx
  · rcases List.mem_append.mp hx with h | h
    · exact Or.inl h
    · rw [List.mem_singleton] at h
      subst h
      exact Or.inr rfl

theorem mem_createLogEntries (now : Time) (rows : List PLCLogEntry) (d : DB) (x : PLCLogEntry)
    (hx : x ∈ (d.createLogEntries now rows).log) :
    x ∈ d.log ∨ ∃ row ∈ rows, x.PLCTimestamp = row.PLCTimestamp := by
  induction rows generalizing d with
  | nil => exact Or.inl hx
  | cons row rows ih =>
    simp only [DB.createLogEntries, List.foldl_cons] at ih hx
    rcases ih _ hx with h | ⟨r2, hr2, h⟩
    · rcases mem_insertLogEntry now d row x h with h | h
      · exact Or.inl h
      · exact Or.inr ⟨row, List.mem_cons_self _ _, h⟩
    · exact Or.inr ⟨r2, List.mem_cons_of_mem _ hr2, h⟩

theorem fold_lastTimestamp (lib : Lib) (es : List plc.OperationLogEntry) (ds : DecodeState)
    (e : plc.OperationLogEntry) (t : Time) (hlast : es.getLast? = some e)
    (ht : lib.parseTime e.CreatedAt = some t) :
    (es.foldl (decodeEntry lib) ds).lastTimestamp = t := by
  obtain ⟨init, rfl⟩ := List.getLast?_eq_some_iff.mp hlast
  rw [fold_concat, decodeEntry_lastTimestamp, ht]
  rfl

/-- In a list in ascending order that starts with `b` some element is the
greatest. -/
theorem exists_greatest (b : Int) (ts : List Int) (h : (b :: ts).Pairwise (· ≤ ·)) :
    ∃ m ∈ b :: ts, ∀ x ∈ b :: ts, x ≤ m := by
  induction ts generalizing b with
  | nil => exact ⟨b, List.mem_singleton_self _, fun x hx => by
      rw [List.mem_singleton] at hx; exact le_of_eq hx⟩
  | cons t ts ih =>
    rw [List.pairwise_cons] at h
    obtain ⟨m, hm, hmax⟩ := ih t h.2
    refine ⟨m, List.mem_cons_of_mem _ hm, ?_⟩
    intro x hx
    rcases List.mem_cons.mp hx with rfl | hx
    · exact le_trans (h.1 t (List.mem_cons_self _ _)) (hmax t (List.mem_cons_self _ _))
    · exact hmax x hx

theorem timeNs_of_parse (lib : Lib) (s : String) (t : Time) (h : lib.parseTime s = some t) :
    timeNs lib s = t.ns := by
  unfold timeNs
  rw [h]

/-- One iteration keeps the cursor and the stored rows below every bound of
the timestamps seen so far, and does not move the cursor back. -/
theorem backfillPage_bounded (lib : Lib) (r : Runtime) (cursor : String) (env : PageEnv)
    (b m : Int) (hr : BoundedBy lib r b)
    (hparse : ∀ e ∈ pageEntries env, (lib.parseTime e.CreatedAt).isSome)
    (hlow : ∀ e ∈ pageEntries env, b ≤ timeNs lib e.CreatedAt)
    (hbm : b ≤ m) (hhigh : ∀ e ∈ pageEntries env, timeNs lib e.CreatedAt ≤ m) :
    r.lastRecordTimestamp.ns ≤ (r.backfillPage lib cursor env).1.lastRecordTimestamp.ns
    ∧ BoundedBy lib (r.backfillPage lib cursor env).1 m
    ∧ ∀ c e t, (r.backfillPage lib cursor env).2 = .next c →
        (pageEntries env).getLast? = some e → lib.parseTime e.CreatedAt = some t →
        t.IsZero = false → (r.backfillPage lib cursor env).1.lastRecordTimestamp = t := by
  rcases backfillPage_cases lib r cursor env with ⟨h, hno⟩ | ⟨body, ds, hf, hd, hne, _, _, hw⟩
  · rw [h]
    exact ⟨le_refl _, boundedBy_mono lib r b m hbm hr, fun c _ _ hc => absurd hc (hno c)⟩
  have hpe : pageEntries env = entriesOf body := by
    unfold pageEntries
    rw [hf]
  have hds := decodeLoop_eq_some lib body _ _ hd
  have hrows : ∀ x ∈ (r.db.createLogEntries env.logWriteTime ds.newEntries).log,
      ∃ t, lib.parseTime x.PLCTimestamp = some t ∧ t.ns ≤ m := by
    intro x hx
    rcases mem_createLogEntries _ _ _ x hx with h | ⟨row, hrow, h⟩
    · obtain ⟨t, ht, hle⟩ := hr.2 x h
      exact ⟨t, ht, le_trans hle hbm⟩
    · rw [hds, fold_newEntries] at hrow
      simp only [DecodeState.init, List.nil_append, List.mem_map, List.mem_filter] at hrow
      obtain ⟨e, ⟨he, _⟩, rfl⟩ := hrow
      rw [← hpe] at he
      have hp := hparse e he
      rw [Option.isSome_iff_exists] at hp
      obtain ⟨t, ht⟩ := hp
      refine ⟨t, by rw [h]; exact ht, ?_⟩
      have := hhigh e he
      rwa [timeNs_of_parse lib _ t ht] at this
  rcases hw with ⟨_, herr, hdb, hlrt⟩ | ⟨_, hres, hdb, hlrt⟩
  · refine ⟨le_of_eq (by rw [hlrt]), ⟨?_, ?_⟩, ?_⟩
    · rw [hlrt]; exact le_trans hr.1 hbm
    · rw [hdb]; exact hrows
    · intro c e t hc
      rw [herr] at hc
      cases hc
  · have hes : entriesOf body ≠ [] := by
      intro h0
      apply hne
      rw [hds, fold_newEntries, h0]
      rfl
    obtain ⟨e, he⟩ : ∃ e, (entriesOf body).getLast? = some e := by
      cases hl : (entriesOf body).getLast? with
      | none => exact absurd (List.getLast?_eq_none_iff.mp hl) hes
      | some e => exact ⟨e, rfl⟩
    have hemem : e ∈ pageEntries env := by
      rw [hpe]
      obtain ⟨init, hinit⟩ := List.getLast?_eq_some_iff.mp he
      rw [hinit]
      exact List.mem_append_right _ (List.mem_singleton_self _)
    have hp := hparse e hemem
    rw [Option.isSome_iff_exists] at hp
    obtain ⟨t, ht⟩ := hp
    have hlast : ds.lastTimestamp = t := by
      rw [hds]
      exact fold_lastTimestamp lib _ _ e t he ht
    have hlo := hlow e hemem
    have hhi := hhigh e hemem
    rw [timeNs_of_parse lib _ t ht] at hlo hhi
    rw [hlast] at hlrt
    refine ⟨?_, ⟨?_, ?_⟩, ?_⟩
    · rw [hlrt]
      split_ifs
      · exact le_refl _
      · exact le_trans hr.1 hlo
    · rw [hlrt]
      split_ifs
      · exact le_trans hr.1 hbm
      · exact hhi
    · rw [hdb, upsertAccountInfos_log]
      exact hrows
    · intro c e2 t2 _ he2 ht2 hz
      rw [hpe, he] at he2
      injection he2 with he2
      subst he2
      rw [ht] at ht2
      injection ht2 with ht2
      subst ht2
      rw [hlrt, if_neg (by simp [hz])]

/-- The state in which the loop waits for its next exchange is bounded by a
timestamp seen so far, or by the bound it started with. -/
theorem backfillLoop_bounded (lib : Lib) (envs : List PageEnv) (r : Runtime) (cursor : String)
    (b : Int) (r1 : Runtime) (c1 : String) (hr : BoundedBy lib r b)
    (hparse : ∀ e ∈ envs.flatMap pageEntries, (lib.parseTime e.CreatedAt).isSome)
    (hsorted : (b :: (envs.flatMap pageEntries).map (fun e => timeNs lib e.CreatedAt)).Pairwise
      (· ≤ ·))
    (hloop : r.backfillLoop lib cursor envs = (r1, .pending c1)) :
    ∃ b1, BoundedBy lib r1 b1 ∧ b ≤ b1
      ∧ (∀ e ∈ envs.flatMap pageEntries, timeNs lib e.CreatedAt ≤ b1)
      ∧ (b1 = b ∨ b1 ∈ (envs.flatMap pageEntries).map (fun e => timeNs lib e.CreatedAt)) := by
  induction envs generalizing r cursor b with
  | nil =>
    simp only [Runtime.backfillLoop, Prod.mk.injEq] at hloop
    rw [← hloop.1]
    exact ⟨b, hr, le_refl _, fun e he => by simp at he, Or.inl rfl⟩
  | cons env rest ih =>
    simp only [List.flatMap_cons, List.map_append] at hparse hsorted ⊢
    have hsplit : (b :: (pageEntries env).map (fun e => timeNs lib e.CreatedAt)).Pairwise (· ≤ ·)
        ∧ ((rest.flatMap pageEntries).map (fun e => timeNs lib e.CreatedAt)).Pairwise (· ≤ ·)
        ∧ ∀ x ∈ b :: (pageEntries env).map (fun e => timeNs lib e.CreatedAt),
            ∀ y ∈ (rest.flatMap pageEntries).map (fun e => timeNs lib e.CreatedAt), x ≤ y := by
      rw [← List.cons_append, List.pairwise_append] at hsorted
      exact hsorted
    obtain ⟨hs1, hs2, hs3⟩ := hsplit
    obtain ⟨m, hm, hmax⟩ := exists_greatest b _ hs1
    have hbm : b ≤ m := hmax b (List.mem_cons_self _ _)
    have hpage := backfillPage_bounded lib r cursor env b m hr
      (fun e he => hparse e (List.mem_append_left _ he))
      (fun e he => (List.pairwise_cons.mp hs1).1 _ (List.mem_map_of_mem _ he))
      hbm (fun e he => hmax _ (List.mem_cons_of_mem _ (List.mem_map_of_mem _ he)))
    unfold Runtime.backfillLoop at hloop
    generalize r.backfillPage lib cursor env = p at hloop hpage
    obtain ⟨r2, res⟩ := p
    cases res with
    | err msg => simp at hloop
    | caughtUp => simp at hloop
    | next c =>
      simp only at hloop hpage
      have hs4 : (m :: (rest.flatMap pageEntries).map (fun e => timeNs lib e.CreatedAt)).Pairwise
          (· ≤ ·) := List.pairwise_cons.mpr ⟨fun y hy => hs3 m hm y hy, hs2⟩
      obtain ⟨b1, hb1, hmb1, hrest, hor⟩ := ih r2 c m hpage.2.1
        (fun e he => hparse e (List.mem_append_right _ he)) hs4 hloop
      refine ⟨b1, hb1, le_trans hbm hmb1, ?_, ?_⟩
      · intro e he
        rcases List.mem_append.mp he with he | he
        · exact le_trans (hmax _ (List.mem_cons_of_mem _ (List.mem_map_of_mem _ he))) hmb1
        · exact hrest e he
      · rcases hor with h | h
        · rcases List.mem_cons.mp hm with h2 | h2
          · left; rw [h, h2]
          · right; rw [h]; exact List.mem_append_left _ h2
        · right; exact List.mem_append_right _ h

/-- C4 (amended). Monotonic cursor: over every sequence of pages whose entries
carry timestamps that parse and are in ascending order, none below the bound
`b` of the cursor and of the stored rows, `lastRecordTimestamp` never decreases
from one iteration to the next; after each update it is the timestamp of the
last entry decoded from the page, which no entry decoded so far and no stored
log row exceeds. -/
theorem C4_cursor_follows_last_entry (lib : Lib) (r : Runtime) (cursor : String)
    (envs : List PageEnv) (env : PageEnv) (b : Int) (r1 : Runtime) (c1 : String)
    (hr : BoundedBy lib r b)
    (hparse : ∀ e ∈ (envs ++ [env]).flatMap pageEntries, (lib.parseTime e.CreatedAt).isSome)
    (hsorted : (b :: ((envs ++ [env]).flatMap pageEntries).map
      (fun e => timeNs lib e.CreatedAt)).Pairwise (· ≤ ·))
    (hloop : r.backfillLoop lib cursor envs = (r1, .pending c1)) :
    r1.lastRecordTimestamp.ns ≤ (r1.backfillPage lib c1 env).1.lastRecordTimestamp.ns
    ∧ ∀ c2 e t, (r1.backfillPage lib c1 env).2 = .next c2 →
        (pageEntries env).getLast? = some e → lib.parseTime e.CreatedAt = some t →
        t.IsZero = false →
        (r1.backfillPage lib c1 env).1.lastRecordTimestamp = t
        ∧ (∀ x ∈ (envs ++ [env]).flatMap pageEntries, timeNs lib x.CreatedAt ≤ t.ns)
        ∧ (∀ row ∈ (r1.backfillPage lib c1 env).1.db.log,
            ∃ u, lib.parseTime row.PLCTimestamp = some u ∧ u.ns ≤ t.ns) := by
  simp only [List.flatMap_append, List.flatMap_singleton, List.map_append] at hparse hsorted ⊢
  have hsplit : (b :: (envs.flatMap pageEntries).map (fun e => timeNs lib e.CreatedAt)).Pairwise
        (· ≤ ·)
      ∧ ((pageEntries env).map (fun e => timeNs lib e.CreatedAt)).Pairwise (· ≤ ·)
      ∧ ∀ x ∈ b :: (envs.flatMap pageEntries).map (fun e => timeNs lib e.CreatedAt),
          ∀ y ∈ (pageEntries env).map (fun e => timeNs lib e.CreatedAt), x ≤ y := by
    rw [← List.cons_append, List.pairwise_append] at hsorted
    exact hsorted
  obtain ⟨hs1, hs2, hs3⟩ := hsplit
  obtain ⟨b1, hb1, _, hprev, hor⟩ := backfillLoop_bounded lib envs r cursor b r1 c1 hr
    (fun e he => hparse e (List.mem_append_left _ he)) hs1 hloop
  have hb1mem : b1 ∈ b :: (envs.flatMap pageEntries).map (fun e => timeNs lib e.CreatedAt) := by
    rcases hor with h | h
    · rw [h]; exact List.mem_cons_self _ _
    · exact List.mem_cons_of_mem _ h
  have hlow : ∀ e ∈ pageEntries env, b1 ≤ timeNs lib e.CreatedAt :=
    fun e he => hs3 b1 hb1mem _ (List.mem_map_of_mem _ he)
  obtain ⟨m, _, hmax⟩ := exists_greatest b1 _
    (List.pairwise_cons.mpr ⟨fun y hy => hs3 b1 hb1mem y hy, hs2⟩)
  have hgen := backfillPage_bounded lib r1 c1 env b1 m hb1
    (fun e he => hparse e (List.mem_append_right _ he)) hlow
    (hmax b1 (List.mem_cons_self _ _))
    (fun e he => hmax _ (List.mem_cons_of_mem _ (List.mem_map_of_mem _ he)))
  refine ⟨hgen.1, ?_⟩
  intro c2 e t hres hlast ht hz
  obtain ⟨init, hinit⟩ := List.getLast?_eq_some_iff.mp hlast
  have hemem : e ∈ pageEntries env := by
    rw [hinit]; exact List.mem_append_right _ (List.mem_singleton_self _)
  have hte : timeNs lib e.CreatedAt = t.ns := timeNs_of_parse lib _ t ht
  have hhigh : ∀ x ∈ pageEntries env, timeNs lib x.CreatedAt ≤ t.ns := by
    intro x hx
    rw [hinit] at hx hs2
    rw [List.map_append, List.pairwise_append] at hs2
    rcases List.mem_append.mp hx with hx | hx
    · rw [← hte]
      exact hs2.2.2 _ (List.mem_map_of_mem _ hx) _ (by simp)
    · rw [List.mem_singleton] at hx
      rw [hx, hte]
  have hb1t : b1 ≤ t.ns := by
    rw [← hte]; exact hlow e hemem
  have hpage := backfillPage_bounded lib r1 c1 env b1 t.ns hb1
    (fun e he => hparse e (List.mem_append_right _ he)) hlow hb1t hhigh
  refine ⟨hpage.2.2 c2 e t hres hlast ht hz, ?_, hpage.2.1.2⟩
  intro x hx
  rcases List.mem_append.mp hx with hx | hx
  · exact le_trans (hprev x hx) hb1t
  · exact hhigh x hx

/-- Two pages in upstream order: the cursor after the second page is the
timestamp of its entry. -/
theorem C4_cursor_follows_last_entry_witness :
    ((Example.runtime.backfillPage Example.lib "" (Example.page [.entry Example.alice])).1.backfillPage
        Example.lib "2024-01-01T00:00:00Z"
        (Example.page [.entry Example.alice2])).1.lastRecordTimestamp
      = Example.date 2024 1 1 0 5 0
    ∧ (Example.runtime.backfillPage Example.lib ""
        (Example.page [.entry Example.alice])).1.lastRecordTimestamp.ns
      ≤ (Example.date 2024 1 1 0 5 0).ns := by
  have h := C4_cursor_follows_last_entry Example.lib Example.runtime ""
    [Example.page [.entry Example.alice]] (Example.page [.entry Example.alice2]) 0
    (Example.runtime.backfillPage Example.lib "" (Example.page [.entry Example.alice])).1
    "2024-01-01T00:00:00Z" ⟨by decide, fun _ hrow => by cases hrow⟩ (by decide) (by decide)
    (by rfl)
  have h2 := (h.2 "2024-01-01T00:05:00Z" Example.alice2 (Example.date 2024 1 1 0 5 0)
    (by decide) (by decide) (by decide) (by decide)).1
  refine ⟨h2, ?_⟩
  rw [← h2]
  exact h.1

/-- C4, as stated, fails. When a later page carries an older timestamp the
cursor decreases; and when the last entry of a page is a placeholder record the
cursor is its timestamp, above the timestamp of every stored log row. -/
theorem C4_counterexample :
    (Example.runtime.backfillPage Example.lib ""
        (Example.page [.entry Example.alice2])).1.lastRecordTimestamp
      = Example.date 2024 1 1 0 5 0
    ∧ ((Example.runtime.backfillPage Example.lib ""
        (Example.page [.entry Example.alice2])).1.backfillPage Example.lib "2024-01-01T00:05:00Z"
        (Example.page [.entry Example.alice])).1.lastRecordTimestamp
      = Example.date 2024 1 1 0 0 0
    ∧ (Example.date 2024 1 1 0 0 0).ns < (Example.date 2024 1 1 0 5 0).ns
    ∧ (Example.runtime.backfillPage Example.lib ""
        (Example.page [.entry Example.alice, .entry Example.placeholder])).1.lastRecordTimestamp
      = Example.date 2024 1 1 0 5 0
    ∧ (Example.runtime.backfillPage Example.lib ""
        (Example.page [.entry Example.alice, .entry Example.placeholder])).1.db.log.map
          (fun row => Example.lib.parseTime row.PLCTimestamp)
      = [some (Example.date 2024 1 1 0 0 0)] := by
  decide

end PlcMirror
